import Mathlib

/-!
# Rate-limited transfer engine of the faucet

A shallow embedding of `backend/cosmosfaucet/transfer.go`, `cosmosfaucet/cosmosfaucet.go`
and `cosmosfaucet/http_faucet.go`.

Conventions of the embedding

* Go's `(value, error)` results are pairs `value × Option Err` (`none` is the nil error).
* Calls on the chain command runner are functions on an explicit world state `σ`; every call
  returns its result together with the next state.
* `uint64` values are natural numbers; additions performed on `uint64` are reduced modulo `2 ^ 64`.
* `sdk.Int` amounts are natural numbers of any size; `Int.Uint64()` panics outside the 64-bit range.
* `time.Time` and `time.Duration` are integers counting nanoseconds; `time.Since t` is the clock
  reading minus `t`.
* A run of a function either returns or panics (`Go.ret`, `Go.panic`).
* Denominations are assumed to satisfy the SDK's denomination syntax, so the validating
  constructors of the SDK (`NewCoin`, `AmountOf`) do not reject them.
* The process-wide `transferMutex` is not represented: the embedding is sequential.
-/

namespace cosmosfaucet

/-! ## Status codes (transfer.go, lines 18-26) -/

def NO_ERROR : Nat := 200
def ERR_CANT_FETCH_TOATL : Nat := 500
def ERR_REACHED_MAX_LIMIT : Nat := 501
def ERR_EXCEEDING_MAX_LIMIT : Nat := 502
def ERR_ACCOUNT_NOT_AVAILABLE : Nat := 503
def ERR_BALANCE_NOT_ENOUGH : Nat := 504
def ERR_TX_FAILED : Nat := 505

/-- Number of values of a `uint64`. -/
def U64 : Nat := 2 ^ 64

/-- The duration `time.Second`, in nanoseconds. -/
def Second : Int := 1000000000

/-- Error values. Errors made by collaborators carry their text; the two errors built by
`Transfer` with `fmt.Errorf` carry the values that are formatted into their message. -/
inductive Err where
  | msg (text : String)
  | reachedMax (max : Nat) (denom : String)
  | exceedingMax (denom : String) (max : Nat)
  | canceled
deriving DecidableEq, Repr

/-- Result of running a Go function: a normal return or a panic. -/
inductive Go (α : Type) where
  | ret (v : α)
  | panic
deriving DecidableEq, Repr

/-- An `sdk.Coin`. -/
structure Coin where
  Denom : String
  Amount : Nat
deriving DecidableEq, Repr

abbrev Coins := List Coin

/-- The method `Coins.AmountOf`: the amount held in `denom`, zero when absent. -/
def Coins.AmountOf (coins : Coins) (denom : String) : Nat :=
  match coins.find? (fun c => c.Denom == denom) with
  | some c => c.Amount
  | none => 0

/-- The method `Int.Uint64`: the value as a `uint64`; `none` stands for its panic when the
value is out of range. -/
def Uint64 (i : Nat) : Option Nat :=
  if i < U64 then some i else none

/-- The method `Coin.String`: the amount in decimal followed by the denomination. -/
def Coin.String (c : Coin) : String :=
  toString c.Amount ++ c.Denom

structure EventAttribute where
  Key : String
  Value : String
deriving DecidableEq, Repr

/-- An event of the chain command runner. -/
structure Event where
  Typ : String
  Attributes : List EventAttribute
  Time : Int
deriving DecidableEq, Repr

structure EventSelector where
  typ : String
  attr : String
  value : String
deriving DecidableEq, Repr

def NewEventSelector (typ attr value : String) : EventSelector :=
  ⟨typ, attr, value⟩

structure Account where
  Name : String
  Address : String
deriving DecidableEq, Repr

/-- The node status, as far as the faucet reads it. -/
structure NodeStatus where
  ChainID : String
deriving DecidableEq, Repr

/-- The chain command runner, as far as the faucet uses it. -/
structure Runner (σ : Type) where
  AddAccount : String → String → String → σ → Except Err Account × σ
  Status : σ → Except Err NodeStatus × σ
  ShowAccount : String → σ → Except Err Account × σ
  QueryTxEvents : EventSelector → EventSelector → σ → Except Err (List Event) × σ
  BankSend : String → String → String → σ → Except Err String × σ
  WaitTx : String → Int → Nat → σ → Option Err × σ

/-- Library functions the faucet calls: the coin parser of the SDK and the clock. -/
structure Lib (σ : Type) where
  ParseCoinsNormalized : String → Except Err Coins
  Now : σ → Int

/-- The template data of the OpenAPI page. -/
structure openAPIData where
  ChainID : String
  APIAddress : String
deriving DecidableEq, Repr

/-- The configuration read by the faucet. The two reCAPTCHA fields are those of `config.go`;
`Referer` is the allowed referer the handler reads as `f.configuration.Referer`, whose
declaration is not among the sources. -/
structure Config where
  ReCAPTCHA_VerifyURL : String
  ReCAPTCHA_ServerKey : String
  Referer : String
deriving DecidableEq, Repr

/-- The struct `Faucet` (cosmosfaucet.go, lines 37-68). The map `coinsMax` is the function
reading it, a missing key reading as zero; `captcha` is the `Verify` method of the reCAPTCHA
client. -/
structure Faucet (σ : Type) where
  runner : Runner σ
  chainID : String
  accountName : String
  accountMnemonic : String
  coinType : String
  coins : Coins
  coinsMax : String → Nat
  limitRefreshWindow : Int
  openAPIData : openAPIData
  configuration : Config
  captcha : String → Option Err

/-! ## TotalTransferredAmount (transfer.go, lines 28-62) -/

/-- Control flow after a step of the loops of `TotalTransferredAmount`: go on with the running
total, `return 0, err`, or panic. -/
inductive Flow where
  | next (totalAmount : Nat)
  | ret (err : Err)
  | panic
deriving DecidableEq, Repr

/-- Body of the loop over the attributes of an event (lines 45-56). -/
def attrStep {σ : Type} (L : Lib σ) (denom : String) (since window : Int) (totalAmount : Nat)
    (attr : EventAttribute) : Flow :=
  if attr.Key = "amount" then
    match L.ParseCoinsNormalized attr.Value with
    | .error err => .ret err
    | .ok coins =>
      match Uint64 (coins.AmountOf denom) with
      | none => .panic
      | some amount =>
        if amount > 0 ∧ since < window then .next ((totalAmount + amount) % U64)
        else .next totalAmount
  else .next totalAmount

/-- The loop over the attributes of an event (line 44). -/
def attrLoop {σ : Type} (L : Lib σ) (denom : String) (since window : Int) :
    List EventAttribute → Nat → Flow
  | [], totalAmount => .next totalAmount
  | attr :: rest, totalAmount =>
    match attrStep L denom since window totalAmount attr with
    | .next t => attrLoop L denom since window rest t
    | .ret err => .ret err
    | .panic => .panic

/-- The loop over the events (line 42). -/
def eventLoop {σ : Type} (L : Lib σ) (denom : String) (now window : Int) :
    List Event → Nat → Flow
  | [], totalAmount => .next totalAmount
  | event :: rest, totalAmount =>
    if event.Typ = "transfer" then
      match attrLoop L denom (now - event.Time) window event.Attributes totalAmount with
      | .next t => eventLoop L denom now window rest t
      | .ret err => .ret err
      | .panic => .panic
    else eventLoop L denom now window rest totalAmount

/-- The method `Faucet.TotalTransferredAmount`. -/
def TotalTransferredAmount {σ : Type} (L : Lib σ) (f : Faucet σ)
    (toAccountAddress denom : String) (s : σ) : Go (Nat × Option Err) × σ :=
  match f.runner.ShowAccount f.accountName s with
  | (.error err, s1) => (.ret (0, some err), s1)
  | (.ok fromAccount, s1) =>
    match f.runner.QueryTxEvents
        (NewEventSelector "message" "sender" fromAccount.Address)
        (NewEventSelector "transfer" "recipient" toAccountAddress) s1 with
    | (.error err, s2) => (.ret (0, some err), s2)
    | (.ok events, s2) =>
      match eventLoop L denom (L.Now s2) f.limitRefreshWindow events 0 with
      | .next totalAmount => (.ret (totalAmount, none), s2)
      | .ret err => (.ret (0, some err), s2)
      | .panic => (.panic, s2)

/-! ## Transfer (transfer.go, lines 64-117) -/

/-- Control flow after the checks of one requested coin: go on, `return code, err`, or panic. -/
inductive Check where
  | pass
  | fail (code : Nat) (err : Err)
  | panic
deriving DecidableEq, Repr

/-- The cap checks of one coin, given the total already sent (lines 78-94). -/
def capCheck {σ : Type} (f : Faucet σ) (c : Coin) (totalSent : Nat) : Check :=
  if f.coinsMax c.Denom ≠ 0 then
    if totalSent ≥ f.coinsMax c.Denom then
      .fail ERR_REACHED_MAX_LIMIT (.reachedMax (f.coinsMax c.Denom) c.Denom)
    else
      match Uint64 c.Amount with
      | none => .panic
      | some amount =>
        if (totalSent + amount) % U64 > f.coinsMax c.Denom then
          .fail ERR_EXCEEDING_MAX_LIMIT (.exceedingMax c.Denom (f.coinsMax c.Denom))
        else .pass
  else .pass

/-- The checks of one requested coin (lines 73-94). -/
def checkCoin {σ : Type} (L : Lib σ) (f : Faucet σ) (toAccountAddress : String) (c : Coin)
    (s : σ) : Check × σ :=
  match TotalTransferredAmount L f toAccountAddress c.Denom s with
  | (.panic, s1) => (.panic, s1)
  | (.ret (_, some err), s1) => (.fail ERR_CANT_FETCH_TOATL err, s1)
  | (.ret (totalSent, none), s1) => (capCheck f c totalSent, s1)

/-- Result of the loop over the requested coins: the strings of the coins when all of them
passed, the `return code, err` of the first failing coin, or a panic. -/
inductive Checked where
  | pass (coinsStr : List String)
  | fail (code : Nat) (err : Err)
  | panic
deriving DecidableEq, Repr

/-- The loop over the requested coins (lines 72-97). -/
def checkCoins {σ : Type} (L : Lib σ) (f : Faucet σ) (toAccountAddress : String) :
    Coins → List String → σ → Checked × σ
  | [], coinsStr, s => (.pass coinsStr, s)
  | c :: rest, coinsStr, s =>
    match checkCoin L f toAccountAddress c s with
    | (.pass, s1) => checkCoins L f toAccountAddress rest (coinsStr ++ [c.String]) s1
    | (.fail code err, s1) => (.fail code err, s1)
    | (.panic, s1) => (.panic, s1)

/-- The wait for the confirmation and the final result (lines 109-116). -/
def waitAndReturn {σ : Type} (f : Faucet σ) (txHash : String) (s : σ) :
    Go (Nat × Option Err) × σ :=
  match f.runner.WaitTx txHash Second 30 s with
  | (some err, s1) => (.ret (ERR_TX_FAILED, some err), s1)
  | (none, s1) => (.ret (NO_ERROR, none), s1)

/-- The send of all coins (lines 99-116). -/
def sendCoins {σ : Type} (f : Faucet σ) (toAccountAddress : String) (coinsStr : List String)
    (s : σ) : Go (Nat × Option Err) × σ :=
  match f.runner.ShowAccount f.accountName s with
  | (.error err, s1) => (.ret (ERR_ACCOUNT_NOT_AVAILABLE, some err), s1)
  | (.ok fromAccount, s1) =>
    match f.runner.BankSend fromAccount.Address toAccountAddress (",".intercalate coinsStr) s1 with
    | (.error err, s2) => (.ret (ERR_BALANCE_NOT_ENOUGH, some err), s2)
    | (.ok txHash, s2) => waitAndReturn f txHash s2

/-- The method `Faucet.Transfer`. -/
def Transfer {σ : Type} (L : Lib σ) (f : Faucet σ) (toAccountAddress : String) (coins : Coins)
    (s : σ) : Go (Nat × Option Err) × σ :=
  match checkCoins L f toAccountAddress coins [] s with
  | (.fail code err, s1) => (.ret (code, some err), s1)
  | (.panic, s1) => (.panic, s1)
  | (.pass coinsStr, s1) => sendCoins f toAccountAddress coinsStr s1

/-! ## The total inside the window, as the specification words it -/

/-- Amount of `denom` carried by one attribute: that of its parsed coins when it is an
`amount` attribute. -/
def attrAmount {σ : Type} (L : Lib σ) (denom : String) (attr : EventAttribute) : Nat :=
  if attr.Key = "amount" then
    match L.ParseCoinsNormalized attr.Value with
    | .ok coins => coins.AmountOf denom
    | .error _ => 0
  else 0

/-- Amount of `denom` carried by one event: the sum over its attributes when it is a
transfer event. -/
def eventAmount {σ : Type} (L : Lib σ) (denom : String) (event : Event) : Nat :=
  if event.Typ = "transfer" then (event.Attributes.map (attrAmount L denom)).sum else 0

/-- Sum of the amounts of the events whose age `now - event.Time` is strictly less than the
window. -/
def windowTotal {σ : Type} (L : Lib σ) (denom : String) (now window : Int)
    (events : List Event) : Nat :=
  ((events.filter (fun event => decide (now - event.Time < window))).map
    (eventAmount L denom)).sum

/-- The amount attributes of the transfer events all parse, to amounts of `denom` that fit
in 64 bits. -/
def WellFormedEvents {σ : Type} (L : Lib σ) (denom : String) (events : List Event) : Prop :=
  ∀ event ∈ events, event.Typ = "transfer" → ∀ attr ∈ event.Attributes, attr.Key = "amount" →
    ∃ coins, L.ParseCoinsNormalized attr.Value = .ok coins ∧ coins.AmountOf denom < U64

/-! ## Options and New (cosmosfaucet.go, lines 17-35 and 70-161) -/

/-- The runner's error `ErrAccountAlreadyExists`. -/
def ErrAccountAlreadyExists : Err := .msg "account already exists"

def DefaultAccountName : String := "faucet"
def DefaultDenom : String := "uatom"
def DefaultAmount : Nat := 10000000
def DefaultMaxAmount : Nat := 100000000
def DefaultRefreshWindow : Int := 3600 * Second * 24 * 36500

/-- The options defined by the package; `apply` is the function each of them returns. -/
inductive FaucetOption where
  | Account (name mnemonic coinType : String)
  | Coin (amount maxAmount : Nat) (denom : String)
  | RefreshWindow (refreshWindow : Int)
  | ChainID (id : String)
  | OpenAPI (apiAddress : String)
deriving DecidableEq, Repr

def FaucetOption.apply {σ : Type} : FaucetOption → Faucet σ → Faucet σ
  | .Account name mnemonic coinType, f =>
    { f with accountName := name, accountMnemonic := mnemonic, coinType := coinType }
  | .Coin amount maxAmount denom, f =>
    { f with
      coins := f.coins ++ [⟨denom, amount⟩]
      coinsMax := fun d => if d = denom then maxAmount else f.coinsMax d }
  | .RefreshWindow refreshWindow, f => { f with limitRefreshWindow := refreshWindow }
  | .ChainID id, f => { f with chainID := id }
  | .OpenAPI apiAddress, f => { f with openAPIData := { f.openAPIData with APIAddress := apiAddress } }

/-- The faucet of `New` before the options are applied (lines 121-128). -/
def newFaucet {σ : Type} (ccr : Runner σ) (conf : Config) (c : String → Option Err) : Faucet σ :=
  { runner := ccr
    chainID := ""
    accountName := DefaultAccountName
    accountMnemonic := ""
    coinType := ""
    coins := []
    coinsMax := fun _ => 0
    limitRefreshWindow := 0
    openAPIData := ⟨"Blockchain", "http://localhost:1317"⟩
    configuration := conf
    captcha := c }

/-- The options and the defaults (lines 130-140). -/
def configure {σ : Type} (f : Faucet σ) (options : List FaucetOption) : Faucet σ :=
  let f1 := options.foldl (fun f apply => apply.apply f) f
  let f2 := if f1.coins.length = 0 then
      (FaucetOption.Coin DefaultAmount DefaultMaxAmount DefaultDenom).apply f1 else f1
  if f2.limitRefreshWindow = 0 then (FaucetOption.RefreshWindow DefaultRefreshWindow).apply f2
  else f2

/-- The import of the account when a mnemonic is given (lines 142-148): the error `New`
returns, if any. -/
def importAccount {σ : Type} (f : Faucet σ) (s : σ) : Option Err × σ :=
  if f.accountMnemonic ≠ "" then
    match f.runner.AddAccount f.accountName f.accountMnemonic f.coinType s with
    | (.error err, s1) => if err ≠ ErrAccountAlreadyExists then (some err, s1) else (none, s1)
    | (.ok _, s1) => (none, s1)
  else (none, s)

/-- The function `New`; `c` is the reCAPTCHA client built from the configuration. -/
def New {σ : Type} (ccr : Runner σ) (conf : Config) (c : String → Option Err)
    (options : List FaucetOption) (s : σ) : Except Err (Faucet σ) × σ :=
  let f := configure (newFaucet ccr conf c) options
  match importAccount f s with
  | (some err, s1) => (.error err, s1)
  | (none, s1) =>
    if f.chainID = "" then
      match f.runner.Status s1 with
      | (.error err, s2) => (.error err, s2)
      | (.ok status, s2) =>
        (.ok { f with
            chainID := status.ChainID
            openAPIData := { f.openAPIData with ChainID := status.ChainID } }, s2)
    else (.ok f, s1)

/-- The coins the `Coin` options add, in the order of the options. -/
def optionCoins : List FaucetOption → Coins
  | [] => []
  | .Coin amount _ denom :: rest => ⟨denom, amount⟩ :: optionCoins rest
  | _ :: rest => optionCoins rest

/-! ## faucetHandler (http_faucet.go, lines 16-72 and 115-123) -/

def StatusOK : Nat := 200
def StatusBadRequest : Nat := 400
def ErrNoCookie : Err := .msg "http: named cookie not present"

/-- The method `Error` of an error value. -/
def Err.Error : Err → String
  | .msg text => text
  | .reachedMax max denom =>
    "account has reached to the max. allowed amount (" ++ toString max ++ ") for \""
      ++ denom ++ "\" denom"
  | .exceedingMax denom max =>
    "ask less amount for \"" ++ denom ++ "\" denom. account is reaching to the limit ("
      ++ toString max ++ ") that faucet can tolerate"
  | .canceled => "context canceled"

structure Cookie where
  Name : String
  Value : String
deriving DecidableEq, Repr

/-- The parts of an `http.Request` the handler reads: the cookies, the `Referer` header, the
`Origin` header and the body. -/
structure Request where
  Cookies : List Cookie
  Referer : String
  Origin : String
  Body : String
deriving DecidableEq, Repr

/-- The method `Request.Cookie`. -/
def Request.Cookie (r : Request) (name : String) : Except Err Cookie :=
  match r.Cookies.find? (fun c => c.Name == name) with
  | some c => .ok c
  | none => .error ErrNoCookie

structure TransferRequest where
  AccountAddress : String
deriving DecidableEq, Repr

structure TransferResponse where
  Error : String
deriving DecidableEq, Repr

/-- What the handler wrote: the status code and the JSON payload. -/
structure Response where
  code : Nat
  body : TransferResponse
deriving DecidableEq, Repr

def responseSuccess : Response := ⟨StatusOK, ⟨""⟩⟩

/-- The function `responseError`; calling `Error` on the nil error panics before anything is
written. -/
def responseError (code : Nat) (err : Option Err) : Go (Option Response) :=
  match err with
  | none => .panic
  | some e => .ret (some ⟨code, ⟨e.Error⟩⟩)

/-- The method `Faucet.faucetHandler`. `decode` is the JSON decoding of the body and
`transfer` the transfer method the handler calls with the address of the request. The result
is the response written, if any. -/
def faucetHandler {σ : Type} (f : Faucet σ) (decode : String → Except Err TransferRequest)
    (transfer : String → σ → Go (Nat × Option Err) × σ) (r : Request) (s : σ) :
    Go (Option Response) × σ :=
  match r.Cookie "response" with
  | .error err => (responseError StatusBadRequest (some err), s)
  | .ok cookie_captcha =>
    if r.Referer ≠ r.Origin ++ "/" ∨ r.Referer ≠ f.configuration.Referer then
      (responseError StatusBadRequest none, s)
    else
      match f.captcha cookie_captcha.Value with
      | some err => (responseError StatusBadRequest (some err), s)
      | none =>
        match decode r.Body with
        | .error err => (responseError StatusBadRequest (some err), s)
        | .ok req =>
          match transfer req.AccountAddress s with
          | (.panic, s1) => (.panic, s1)
          | (.ret (errCode, some err), s1) =>
            if err = .canceled then (.ret none, s1) else (responseError errCode (some err), s1)
          | (.ret (_, none), s1) => (.ret (some responseSuccess), s1)

/-! ## A runner that records its calls -/

inductive Call where
  | AddAccount (name mnemonic coinType : String)
  | Status
  | ShowAccount (name : String)
  | QueryTxEvents (a b : EventSelector)
  | BankSend (sender recipient amount : String)
  | WaitTx (txHash : String) (interval : Int) (attempts : Nat)
deriving DecidableEq, Repr

/-- The runner `r` with every call appended to a log kept beside the state. -/
def Runner.logged {σ : Type} (r : Runner σ) : Runner (σ × List Call) :=
  { AddAccount := fun name mnemonic coinType s =>
      ((r.AddAccount name mnemonic coinType s.1).1,
        ((r.AddAccount name mnemonic coinType s.1).2, s.2 ++ [.AddAccount name mnemonic coinType]))
    Status := fun s => ((r.Status s.1).1, ((r.Status s.1).2, s.2 ++ [.Status]))
    ShowAccount := fun name s =>
      ((r.ShowAccount name s.1).1, ((r.ShowAccount name s.1).2, s.2 ++ [.ShowAccount name]))
    QueryTxEvents := fun a b s =>
      ((r.QueryTxEvents a b s.1).1, ((r.QueryTxEvents a b s.1).2, s.2 ++ [.QueryTxEvents a b]))
    BankSend := fun sender recipient amount s =>
      ((r.BankSend sender recipient amount s.1).1,
        ((r.BankSend sender recipient amount s.1).2, s.2 ++ [.BankSend sender recipient amount]))
    WaitTx := fun txHash interval attempts s =>
      ((r.WaitTx txHash interval attempts s.1).1,
        ((r.WaitTx txHash interval attempts s.1).2, s.2 ++ [.WaitTx txHash interval attempts])) }

def Lib.logged {σ : Type} (L : Lib σ) : Lib (σ × List Call) :=
  { ParseCoinsNormalized := L.ParseCoinsNormalized
    Now := fun s => L.Now s.1 }

def Faucet.logged {σ : Type} (f : Faucet σ) : Faucet (σ × List Call) :=
  { runner := f.runner.logged
    chainID := f.chainID
    accountName := f.accountName
    accountMnemonic := f.accountMnemonic
    coinType := f.coinType
    coins := f.coins
    coinsMax := f.coinsMax
    limitRefreshWindow := f.limitRefreshWindow
    openAPIData := f.openAPIData
    configuration := f.configuration
    captcha := f.captcha }

/-- The sends among the recorded calls. -/
def bankSends (log : List Call) : List Call :=
  log.filter (fun c => match c with
    | .BankSend _ _ _ => true
    | _ => false)

/-- The coins pass their checks one after the other: the check of each coin, run in the state
the check of the coin before it left, passes; `s1` is the state after the last one. -/
def PassInTurn {σ : Type} (L : Lib σ) (f : Faucet σ) (toAccountAddress : String) :
    Coins → σ → σ → Prop
  | [], s, s1 => s1 = s
  | c :: rest, s, s1 =>
    ∃ s2, checkCoin L f toAccountAddress c s = (.pass, s2)
      ∧ PassInTurn L f toAccountAddress rest s2 s1

/-- Every total the loop of `Transfer` asks for along the run from `s` is returned without
error. -/
def totalsFetched {σ : Type} (L : Lib σ) (f : Faucet σ) (toAccountAddress : String) :
    Coins → σ → Bool
  | [], _ => true
  | c :: rest, s =>
    match TotalTransferredAmount L f toAccountAddress c.Denom s with
    | (.ret (_, none), s1) => totalsFetched L f toAccountAddress rest s1
    | _ => false

/-! ## A ledger that records confirmed sends

An executable chain behind the runner: a clock, a keyring, at most one submitted send awaiting
confirmation, and the confirmed sends, each of which is reported as a transfer event. -/

/-- A bank send known to the ledger. -/
structure Send where
  sender : String
  recipient : String
  amount : String
  time : Int
deriving DecidableEq, Repr

structure Ledger where
  now : Int
  keyring : List Account
  stalled : Bool
  pending : Option (String × Send)
  confirmed : List Send
deriving DecidableEq, Repr

/-- The transfer event of a confirmed send. -/
def Send.event (t : Send) : Event :=
  { Typ := "transfer"
    Attributes := [⟨"recipient", t.recipient⟩, ⟨"sender", t.sender⟩, ⟨"amount", t.amount⟩]
    Time := t.time }

def Send.matchesSelector (t : Send) (sel : EventSelector) : Bool :=
  if sel.attr = "sender" then t.sender == sel.value
  else if sel.attr = "recipient" then t.recipient == sel.value
  else false

def Ledger.AddAccount (name _mnemonic _coinType : String) (s : Ledger) :
    Except Err Account × Ledger :=
  if s.keyring.any (fun a => a.Name == name) then (.error ErrAccountAlreadyExists, s)
  else (.ok ⟨name, "mun1" ++ name⟩, { s with keyring := s.keyring ++ [⟨name, "mun1" ++ name⟩] })

def Ledger.Status (s : Ledger) : Except Err NodeStatus × Ledger :=
  (.ok ⟨"mun-testnet"⟩, s)

def Ledger.ShowAccount (name : String) (s : Ledger) : Except Err Account × Ledger :=
  match s.keyring.find? (fun a => a.Name == name) with
  | some a => (.ok a, s)
  | none => (.error (.msg "account not found"), s)

def Ledger.QueryTxEvents (a b : EventSelector) (s : Ledger) : Except Err (List Event) × Ledger :=
  (.ok ((s.confirmed.filter (fun t => t.matchesSelector a && t.matchesSelector b)).map Send.event),
    s)

def Ledger.BankSend (sender recipient amount : String) (s : Ledger) :
    Except Err String × Ledger :=
  if s.keyring.any (fun a => a.Address == sender) then
    (.ok ("tx" ++ toString s.confirmed.length),
      { s with pending := some ("tx" ++ toString s.confirmed.length,
                                ⟨sender, recipient, amount, s.now⟩) })
  else (.error (.msg "key not found"), s)

def Ledger.WaitTx (txHash : String) (_interval : Int) (_attempts : Nat) (s : Ledger) :
    Option Err × Ledger :=
  match s.pending with
  | some (h, t) =>
    if h = txHash ∧ s.stalled = false then
      (none, { s with pending := none, confirmed := s.confirmed ++ [t] })
    else (some (.msg "timeout waiting for tx"), s)
  | none => (some (.msg "timeout waiting for tx"), s)

def Ledger.runner : Runner Ledger :=
  { AddAccount := Ledger.AddAccount
    Status := Ledger.Status
    ShowAccount := Ledger.ShowAccount
    QueryTxEvents := Ledger.QueryTxEvents
    BankSend := Ledger.BankSend
    WaitTx := Ledger.WaitTx }

/-- The library over the ledger: a given coin parser and the ledger's clock. -/
def Ledger.lib (parse : String → Except Err Coins) : Lib Ledger :=
  { ParseCoinsNormalized := parse
    Now := Ledger.now }

/-! ### A small coin parser for the worked scenarios -/

def splitComma : List Char → List (List Char)
  | [] => [[]]
  | c :: rest =>
    if c = ',' then [] :: splitComma rest
    else
      match splitComma rest with
      | [] => [[c]]
      | w :: ws => (c :: w) :: ws

def parseDigits (ds : List Char) : Nat :=
  ds.foldl (fun n c => 10 * n + (c.toNat - 48)) 0

def parseCoin (cs : List Char) : Except Err Coin :=
  if cs.takeWhile Char.isDigit = [] ∨ cs.dropWhile Char.isDigit = []
      ∨ (cs.dropWhile Char.isDigit).all Char.isAlpha = false then
    .error (.msg "invalid coin expression")
  else .ok ⟨String.mk (cs.dropWhile Char.isDigit), parseDigits (cs.takeWhile Char.isDigit)⟩

/-- Parser of comma separated coins, each a decimal amount followed by a denomination made of
letters. -/
def parseCoinsSimple (s : String) : Except Err Coins :=
  (splitComma s.data).mapM parseCoin

/-! ### The scenario of the specification: cap 100 uatom, window of one hour -/

def Hour : Int := 3600 * Second

def Minute : Int := 60 * Second

/-- The policy of the scenario. -/
def scenarioFaucet (window : Int) : Faucet Ledger :=
  { runner := Ledger.runner
    chainID := "mun-testnet"
    accountName := "faucet"
    accountMnemonic := ""
    coinType := "118"
    coins := [⟨"uatom", 30⟩]
    coinsMax := fun d => if d = "uatom" then 100 else 0
    limitRefreshWindow := window
    openAPIData := ⟨"mun-testnet", "http://localhost:1317"⟩
    configuration := ⟨"", "", "https://faucet.example/"⟩
    captcha := fun token => if token = "human" then none else some (.msg "captcha failed") }

/-- A ledger whose history is the given sends from the faucet's address. -/
def scenarioLedger (confirmed : List Send) : Ledger :=
  { now := 100 * Hour
    keyring := [⟨"faucet", "mun1faucet"⟩]
    stalled := false
    pending := none
    confirmed := confirmed }

def scenarioLib : Lib Ledger := Ledger.lib parseCoinsSimple

/-- The send of 60 uatom to `A`, ten minutes before the clock of the scenario. -/
def priorSend : Send := ⟨"mun1faucet", "A", "60uatom", 100 * Hour - 10 * Minute⟩

/-- A stand-in for the JSON decoding of the body: the body is the address, and the empty body
is malformed. -/
def decodeAddress (body : String) : Except Err TransferRequest :=
  if body = "" then .error (.msg "EOF") else .ok ⟨body⟩

/-- The transfer the handler of the scenario calls: the coins of the policy to the address. -/
def scenarioTransfer (toAccountAddress : String) (s : Ledger) : Go (Nat × Option Err) × Ledger :=
  Transfer scenarioLib (scenarioFaucet Hour) toAccountAddress (scenarioFaucet Hour).coins s

/-- The coins of the faucet `New` returned, if it returned one. -/
def newCoins {σ : Type} (r : Except Err (Faucet σ) × σ) : Option Coins :=
  match r.1 with
  | .ok f => some f.coins
  | .error _ => none

/-- Total amount of `denom` asked by a request. -/
def requestedAmount (coins : Coins) (denom : String) : Nat :=
  ((coins.filter (fun c => c.Denom = denom)).map Coin.Amount).sum

/-- The events the ledger reports for a sender and a recipient. -/
def Ledger.events (s : Ledger) (sender recipient : String) : List Event :=
  (s.confirmed.filter (fun t =>
    t.matchesSelector (NewEventSelector "message" "sender" sender)
      && t.matchesSelector (NewEventSelector "transfer" "recipient" recipient))).map Send.event

/-! ## Lemmas on TotalTransferredAmount -/

theorem Uint64_of_lt {i : Nat} (h : i < U64) : Uint64 i = some i := by
  simp [Uint64, h]

theorem attrStep_of_wellFormed {σ : Type} (L : Lib σ) (denom : String) (since window : Int)
    (totalAmount : Nat) (attr : EventAttribute)
    (hwf : attr.Key = "amount" →
      ∃ coins, L.ParseCoinsNormalized attr.Value = .ok coins ∧ coins.AmountOf denom < U64)
    (hsum : totalAmount + (if since < window then attrAmount L denom attr else 0) < U64) :
    attrStep L denom since window totalAmount attr
      = .next (totalAmount + (if since < window then attrAmount L denom attr else 0)) := by
  unfold attrStep
  by_cases hk : attr.Key = "amount"
  · obtain ⟨coins, hp, hlt⟩ := hwf hk
    have ha : attrAmount L denom attr = coins.AmountOf denom := by
      simp [attrAmount, hk, hp]
    rw [ha] at hsum ⊢
    simp only [hk, if_true, hp, Uint64_of_lt hlt]
    by_cases hw : since < window
    · simp only [hw, if_true, and_true] at hsum ⊢
      by_cases h0 : coins.AmountOf denom > 0
      · simp only [h0, if_true]
        rw [Nat.mod_eq_of_lt hsum]
      · have : coins.AmountOf denom = 0 := by omega
        simp [this]
    · simp [hw]
  · simp [hk, attrAmount]

theorem attrLoop_of_wellFormed {σ : Type} (L : Lib σ) (denom : String) (since window : Int) :
    ∀ (attrs : List EventAttribute) (totalAmount : Nat),
      (∀ attr ∈ attrs, attr.Key = "amount" →
        ∃ coins, L.ParseCoinsNormalized attr.Value = .ok coins ∧ coins.AmountOf denom < U64) →
      totalAmount + (if since < window then (attrs.map (attrAmount L denom)).sum else 0) < U64 →
      attrLoop L denom since window attrs totalAmount
        = .next (totalAmount
            + (if since < window then (attrs.map (attrAmount L denom)).sum else 0)) := by
  intro attrs
  induction attrs with
  | nil => intro totalAmount _ _; simp [attrLoop]
  | cons attr rest ih =>
    intro totalAmount hwf hsum
    have hhead := hwf attr (List.mem_cons_self _ _)
    have htail : ∀ a ∈ rest, a.Key = "amount" →
        ∃ coins, L.ParseCoinsNormalized a.Value = .ok coins ∧ coins.AmountOf denom < U64 :=
      fun a ha => hwf a (List.mem_cons_of_mem _ ha)
    by_cases hw : since < window
    · simp only [hw, if_true, List.map_cons, List.sum_cons] at hsum ⊢
      have h1 : totalAmount + (if since < window then attrAmount L denom attr else 0) < U64 := by
        simp only [hw, if_true]; omega
      have hstep := attrStep_of_wellFormed L denom since window totalAmount attr hhead h1
      simp only [hw, if_true] at hstep
      have h2 : (totalAmount + attrAmount L denom attr)
          + (if since < window then (rest.map (attrAmount L denom)).sum else 0) < U64 := by
        simp only [hw, if_true]; omega
      have hrest := ih (totalAmount + attrAmount L denom attr) htail h2
      simp only [hw, if_true] at hrest
      simp only [attrLoop, hstep, hrest, Nat.add_assoc]
    · simp only [hw, if_false, Nat.add_zero] at hsum ⊢
      have h1 : totalAmount + (if since < window then attrAmount L denom attr else 0) < U64 := by
        simp only [hw, if_false]; omega
      have hstep := attrStep_of_wellFormed L denom since window totalAmount attr hhead h1
      simp only [hw, if_false, Nat.add_zero] at hstep
      have h2 : totalAmount
          + (if since < window then (rest.map (attrAmount L denom)).sum else 0) < U64 := by
        simp only [hw, if_false]; omega
      have hrest := ih totalAmount htail h2
      simp only [hw, if_false, Nat.add_zero] at hrest
      simp only [attrLoop, hstep, hrest]

theorem windowTotal_cons {σ : Type} (L : Lib σ) (denom : String) (now window : Int)
    (event : Event) (rest : List Event) :
    windowTotal L denom now window (event :: rest)
      = (if now - event.Time < window then eventAmount L denom event else 0)
        + windowTotal L denom now window rest := by
  unfold windowTotal
  by_cases hw : now - event.Time < window
  · simp [List.filter_cons, hw]
  · simp [List.filter_cons, hw]

theorem eventLoop_of_wellFormed {σ : Type} (L : Lib σ) (denom : String) (now window : Int) :
    ∀ (events : List Event) (totalAmount : Nat),
      WellFormedEvents L denom events →
      totalAmount + windowTotal L denom now window events < U64 →
      eventLoop L denom now window events totalAmount
        = .next (totalAmount + windowTotal L denom now window events) := by
  intro events
  induction events with
  | nil => intro totalAmount _ _; simp [eventLoop, windowTotal]
  | cons event rest ih =>
    intro totalAmount hwf hsum
    have htail : WellFormedEvents L denom rest :=
      fun e he => hwf e (List.mem_cons_of_mem _ he)
    rw [windowTotal_cons] at hsum ⊢
    by_cases ht : event.Typ = "transfer"
    · have hhead := hwf event (List.mem_cons_self _ _) ht
      have hev : eventAmount L denom event = (event.Attributes.map (attrAmount L denom)).sum := by
        simp [eventAmount, ht]
      rw [hev] at hsum ⊢
      have h1 : totalAmount + (if now - event.Time < window
          then (event.Attributes.map (attrAmount L denom)).sum else 0) < U64 := by omega
      have hattrs := attrLoop_of_wellFormed L denom (now - event.Time) window event.Attributes
        totalAmount hhead h1
      have hrest := ih _ htail (by omega : totalAmount + (if now - event.Time < window
          then (event.Attributes.map (attrAmount L denom)).sum else 0)
            + windowTotal L denom now window rest < U64)
      simp only [eventLoop, ht, if_true, hattrs, hrest]
      congr 1
      omega
    · have hev : eventAmount L denom event = 0 := by simp [eventAmount, ht]
      rw [hev] at hsum ⊢
      have hrest := ih totalAmount htail (by split_ifs at hsum <;> omega)
      simp only [eventLoop, ht, if_false, hrest]
      congr 1
      split_ifs <;> omega

/-! ## The total inside the window -/

/-- C1, as amended. When the account query and the event query succeed, every amount attribute
of the transfer events parses to an amount of the denomination that fits in 64 bits, and the
total inside the window is below `2 ^ 64`, `TotalTransferredAmount` returns without error the
sum of the amounts in that denomination of exactly the events whose age `now - time` is
strictly less than the refresh window; events at or beyond the window add nothing and the
empty list of events gives 0. -/
theorem TotalTransferredAmount_eq_windowTotal {σ : Type} (L : Lib σ) (f : Faucet σ)
    (toAccountAddress denom : String) (s s1 s2 : σ) (fromAccount : Account)
    (events : List Event)
    (hacc : f.runner.ShowAccount f.accountName s = (.ok fromAccount, s1))
    (hquery : f.runner.QueryTxEvents
        (NewEventSelector "message" "sender" fromAccount.Address)
        (NewEventSelector "transfer" "recipient" toAccountAddress) s1 = (.ok events, s2))
    (hwf : WellFormedEvents L denom events)
    (hfit : windowTotal L denom (L.Now s2) f.limitRefreshWindow events < U64) :
    TotalTransferredAmount L f toAccountAddress denom s
      = (.ret (windowTotal L denom (L.Now s2) f.limitRefreshWindow events, none), s2) := by
  have hloop := eventLoop_of_wellFormed L denom (L.Now s2) f.limitRefreshWindow events 0 hwf
    (by omega)
  simp only [Nat.zero_add] at hloop
  simp only [TotalTransferredAmount, hacc, hquery, hloop]

/-- The events of sends whose amounts parse are well formed. -/
theorem WellFormedEvents_of_sends (parse : String → Except Err Coins) (denom : String)
    (sends : List Send)
    (h : ∀ t ∈ sends, ∃ coins, parse t.amount = .ok coins ∧ coins.AmountOf denom < U64) :
    WellFormedEvents (Ledger.lib parse) denom (sends.map Send.event) := by
  intro event he _ attr ha hk
  simp only [List.mem_map] at he
  obtain ⟨t, ht, rfl⟩ := he
  simp only [Send.event, List.mem_cons, List.mem_singleton, List.not_mem_nil, or_false] at ha
  rcases ha with h1 | h1 | h1
  · subst h1; exact absurd (show "recipient" = "amount" from hk) (by decide)
  · subst h1; exact absurd (show "sender" = "amount" from hk) (by decide)
  · subst h1; exact h t ht

/-- Worked instances of C1, with a window of one hour: 60 uatom sent ten minutes ago and
40 uatom sent exactly one hour ago give the total 60, the send at the boundary contributing
nothing; and a ledger without sends gives 0. -/
theorem TotalTransferredAmount_eq_windowTotal_witness :
    WellFormedEvents scenarioLib "uatom"
        [priorSend.event, (Send.mk "mun1faucet" "A" "40uatom" (100 * Hour - Hour)).event] ∧
    TotalTransferredAmount scenarioLib (scenarioFaucet Hour) "A" "uatom"
        (scenarioLedger [priorSend, ⟨"mun1faucet", "A", "40uatom", 100 * Hour - Hour⟩])
      = (.ret (60, none),
          scenarioLedger [priorSend, ⟨"mun1faucet", "A", "40uatom", 100 * Hour - Hour⟩]) ∧
    TotalTransferredAmount scenarioLib (scenarioFaucet Hour) "A" "uatom" (scenarioLedger [])
      = (.ret (0, none), scenarioLedger []) := by
  have hwf : WellFormedEvents scenarioLib "uatom"
      [priorSend.event, (Send.mk "mun1faucet" "A" "40uatom" (100 * Hour - Hour)).event] := by
    refine WellFormedEvents_of_sends parseCoinsSimple "uatom"
      [priorSend, ⟨"mun1faucet", "A", "40uatom", 100 * Hour - Hour⟩] ?_
    intro t ht
    simp only [List.mem_cons, List.mem_singleton, List.not_mem_nil, or_false] at ht
    rcases ht with h | h
    · subst h; exact ⟨[⟨"uatom", 60⟩], rfl, by decide⟩
    · subst h; exact ⟨[⟨"uatom", 40⟩], rfl, by decide⟩
  have hnil : WellFormedEvents scenarioLib "uatom" [] := by
    intro event he
    simp at he
  exact ⟨hwf,
    TotalTransferredAmount_eq_windowTotal scenarioLib (scenarioFaucet Hour) "A" "uatom"
      (scenarioLedger [priorSend, ⟨"mun1faucet", "A", "40uatom", 100 * Hour - Hour⟩])
      (scenarioLedger [priorSend, ⟨"mun1faucet", "A", "40uatom", 100 * Hour - Hour⟩])
      (scenarioLedger [priorSend, ⟨"mun1faucet", "A", "40uatom", 100 * Hour - Hour⟩])
      ⟨"faucet", "mun1faucet"⟩
      [priorSend.event, (Send.mk "mun1faucet" "A" "40uatom" (100 * Hour - Hour)).event]
      rfl rfl hwf (by decide),
    TotalTransferredAmount_eq_windowTotal scenarioLib (scenarioFaucet Hour) "A" "uatom"
      (scenarioLedger []) (scenarioLedger []) (scenarioLedger [])
      ⟨"faucet", "mun1faucet"⟩ [] rfl rfl hnil (by decide)⟩

/-- Inputs on which C1 fails as stated. A transfer event whose amount attribute does not parse
makes the successful query end in an error; a transfer event of `2 ^ 64` uatom makes the call
panic; two events of `2 ^ 63` uatom inside the window, whose amounts sum to `2 ^ 64`, give
the total 0. -/
theorem TotalTransferredAmount_counterexample :
    (TotalTransferredAmount scenarioLib (scenarioFaucet Hour) "A" "uatom"
        (scenarioLedger [⟨"mun1faucet", "A", "18446744073709551616uatom",
          100 * Hour - 10 * Minute⟩])).1 = .panic ∧
    (TotalTransferredAmount scenarioLib (scenarioFaucet Hour) "A" "uatom"
        (scenarioLedger [⟨"mun1faucet", "A", "sixty", 100 * Hour - 10 * Minute⟩])).1
      = .ret (0, some (.msg "invalid coin expression")) ∧
    (TotalTransferredAmount scenarioLib (scenarioFaucet Hour) "A" "uatom"
        (scenarioLedger [⟨"mun1faucet", "A", "9223372036854775808uatom", 100 * Hour - 10 * Minute⟩,
          ⟨"mun1faucet", "A", "9223372036854775808uatom", 100 * Hour - 5 * Minute⟩])).1
      = .ret (0, none) ∧
    windowTotal scenarioLib "uatom" (100 * Hour) Hour
        [(Send.mk "mun1faucet" "A" "9223372036854775808uatom" (100 * Hour - 10 * Minute)).event,
          (Send.mk "mun1faucet" "A" "9223372036854775808uatom" (100 * Hour - 5 * Minute)).event]
      = 2 ^ 64 := by
  refine ⟨by decide, by decide, by decide, by decide⟩

/-! ## Lemmas on the loop over the requested coins -/

theorem checkCoins_append {σ : Type} (L : Lib σ) (f : Faucet σ) (toAccountAddress : String) :
    ∀ (pre rest : Coins) (coinsStr : List String) (s : σ),
      checkCoins L f toAccountAddress (pre ++ rest) coinsStr s
        = match checkCoins L f toAccountAddress pre coinsStr s with
          | (.pass strs, s1) => checkCoins L f toAccountAddress rest strs s1
          | other => other := by
  intro pre
  induction pre with
  | nil => intro rest coinsStr s; simp [checkCoins]
  | cons c pre ih =>
    intro rest coinsStr s
    simp only [List.cons_append, checkCoins]
    rcases hc : checkCoin L f toAccountAddress c s with ⟨r, s1⟩
    cases r with
    | pass => exact ih rest (coinsStr ++ [c.String]) s1
    | fail code err => rfl
    | panic => rfl

theorem checkCoins_pass {σ : Type} (L : Lib σ) (f : Faucet σ) (toAccountAddress : String) :
    ∀ (coins : Coins) (coinsStr strs : List String) (s s1 : σ),
      checkCoins L f toAccountAddress coins coinsStr s = (.pass strs, s1) →
      strs = coinsStr ++ coins.map Coin.String := by
  intro coins
  induction coins with
  | nil =>
    intro coinsStr strs s s1 h
    simp only [checkCoins, Prod.mk.injEq, Checked.pass.injEq] at h
    simp [h.1]
  | cons c rest ih =>
    intro coinsStr strs s s1 h
    simp only [checkCoins] at h
    rcases hc : checkCoin L f toAccountAddress c s with ⟨r, s2⟩
    rw [hc] at h
    cases r with
    | pass =>
      have := ih _ _ _ _ h
      simp [this]
    | fail code err => simp at h
    | panic => simp at h

theorem capCheck_uncapped {σ : Type} (f : Faucet σ) (c : Coin) (totalSent : Nat)
    (h : f.coinsMax c.Denom = 0) : capCheck f c totalSent = .pass := by
  simp [capCheck, h]

theorem capCheck_reached {σ : Type} (f : Faucet σ) (c : Coin) (totalSent : Nat)
    (hcap : 0 < f.coinsMax c.Denom) (hge : f.coinsMax c.Denom ≤ totalSent) :
    capCheck f c totalSent
      = .fail ERR_REACHED_MAX_LIMIT (.reachedMax (f.coinsMax c.Denom) c.Denom) := by
  have : f.coinsMax c.Denom ≠ 0 := by omega
  simp [capCheck, this, hge]

/-- Without wrap-around of the 64-bit sum, a request that would pass the cap is refused with
code 502. -/
theorem capCheck_exceeding {σ : Type} (f : Faucet σ) (c : Coin) (totalSent : Nat)
    (hlt : totalSent < f.coinsMax c.Denom) (hgt : totalSent + c.Amount > f.coinsMax c.Denom)
    (hfit : totalSent + c.Amount < U64) :
    capCheck f c totalSent
      = .fail ERR_EXCEEDING_MAX_LIMIT (.exceedingMax c.Denom (f.coinsMax c.Denom)) := by
  have h0 : f.coinsMax c.Denom ≠ 0 := by omega
  have h1 : ¬ totalSent ≥ f.coinsMax c.Denom := by omega
  have h2 : Uint64 c.Amount = some c.Amount := Uint64_of_lt (by omega)
  unfold capCheck
  rw [if_pos h0, if_neg h1, h2]
  simp only [Nat.mod_eq_of_lt hfit]
  rw [if_pos hgt]

theorem checkCoin_of_total {σ : Type} (L : Lib σ) (f : Faucet σ) (toAccountAddress : String)
    (c : Coin) (s s1 : σ) (totalSent : Nat)
    (h : TotalTransferredAmount L f toAccountAddress c.Denom s = (.ret (totalSent, none), s1)) :
    checkCoin L f toAccountAddress c s = (capCheck f c totalSent, s1) := by
  simp only [checkCoin, h]

theorem checkCoin_of_error {σ : Type} (L : Lib σ) (f : Faucet σ) (toAccountAddress : String)
    (c : Coin) (s s1 : σ) (v : Nat) (err : Err)
    (h : TotalTransferredAmount L f toAccountAddress c.Denom s = (.ret (v, some err), s1)) :
    checkCoin L f toAccountAddress c s = (.fail ERR_CANT_FETCH_TOATL err, s1) := by
  simp only [checkCoin, h]

/-- The coin that fails after the earlier coins passed decides the result of `Transfer`. -/
theorem Transfer_of_failing_coin {σ : Type} (L : Lib σ) (f : Faucet σ)
    (toAccountAddress : String) (pre post : Coins) (c : Coin) (s s1 s2 : σ)
    (strs : List String) (code : Nat) (err : Err)
    (hpre : checkCoins L f toAccountAddress pre [] s = (.pass strs, s1))
    (hc : checkCoin L f toAccountAddress c s1 = (.fail code err, s2)) :
    Transfer L f toAccountAddress (pre ++ c :: post) s = (.ret (code, some err), s2) := by
  simp only [Transfer, checkCoins_append, hpre, checkCoins, hc]

/-- A failure of the loop carries one of the codes 500, 501, 502. -/
theorem checkCoin_fail_code {σ : Type} (L : Lib σ) (f : Faucet σ) (toAccountAddress : String)
    (c : Coin) (s s1 : σ) (code : Nat) (err : Err)
    (h : checkCoin L f toAccountAddress c s = (.fail code err, s1)) :
    code = ERR_CANT_FETCH_TOATL ∨ code = ERR_REACHED_MAX_LIMIT
      ∨ code = ERR_EXCEEDING_MAX_LIMIT := by
  unfold checkCoin at h
  split at h
  · simp at h
  · simp only [Prod.mk.injEq, Check.fail.injEq] at h
    exact Or.inl h.1.1.symm
  · rename_i totalSent s2 _
    simp only [Prod.mk.injEq] at h
    have h1 := h.1
    unfold capCheck at h1
    split_ifs at h1
    · simp only [Check.fail.injEq] at h1
      exact Or.inr (Or.inl h1.1.symm)
    · split at h1
      · simp at h1
      · split_ifs at h1
        simp only [Check.fail.injEq] at h1
        exact Or.inr (Or.inr h1.1.symm)

theorem checkCoins_fail_code {σ : Type} (L : Lib σ) (f : Faucet σ) (toAccountAddress : String) :
    ∀ (coins : Coins) (coinsStr : List String) (s s1 : σ) (code : Nat) (err : Err),
      checkCoins L f toAccountAddress coins coinsStr s = (.fail code err, s1) →
      code = ERR_CANT_FETCH_TOATL ∨ code = ERR_REACHED_MAX_LIMIT
        ∨ code = ERR_EXCEEDING_MAX_LIMIT := by
  intro coins
  induction coins with
  | nil => intro coinsStr s s1 code err h; simp [checkCoins] at h
  | cons c rest ih =>
    intro coinsStr s s1 code err h
    simp only [checkCoins] at h
    rcases hc : checkCoin L f toAccountAddress c s with ⟨r, s2⟩
    rw [hc] at h
    cases r with
    | pass => exact ih _ _ _ _ _ h
    | fail code1 err1 =>
      simp only [Prod.mk.injEq, Checked.fail.injEq] at h
      obtain ⟨⟨h1, h2⟩, h3⟩ := h
      subst h1 h2 h3
      exact checkCoin_fail_code L f toAccountAddress c s _ _ _ hc
    | panic => simp at h

/-! ## The cap checks of Transfer -/

/-- C2. When the earlier coins of the request passed their checks and the total computed for
the next coin equals the positive cap of its denomination, `Transfer` returns code 501 with
the non-nil error of the reached cap, and not code 502, whatever the amounts of the coins. -/
theorem Transfer_reached_max_limit {σ : Type} (L : Lib σ) (f : Faucet σ)
    (toAccountAddress : String) (pre post : Coins) (c : Coin) (s s1 s2 : σ)
    (strs : List String) (totalSent : Nat)
    (hpre : checkCoins L f toAccountAddress pre [] s = (.pass strs, s1))
    (htotal : TotalTransferredAmount L f toAccountAddress c.Denom s1
      = (.ret (totalSent, none), s2))
    (hcap : 0 < f.coinsMax c.Denom)
    (heq : totalSent = f.coinsMax c.Denom) :
    Transfer L f toAccountAddress (pre ++ c :: post) s
        = (.ret (ERR_REACHED_MAX_LIMIT, some (.reachedMax (f.coinsMax c.Denom) c.Denom)), s2) ∧
      ∀ err, (Transfer L f toAccountAddress (pre ++ c :: post) s).1
        ≠ .ret (ERR_EXCEEDING_MAX_LIMIT, err) := by
  have hc : checkCoin L f toAccountAddress c s1
      = (.fail ERR_REACHED_MAX_LIMIT (.reachedMax (f.coinsMax c.Denom) c.Denom), s2) := by
    rw [checkCoin_of_total L f toAccountAddress c s1 s2 totalSent htotal,
      capCheck_reached f c totalSent hcap (by omega)]
  have ht := Transfer_of_failing_coin L f toAccountAddress pre post c s s1 s2 strs _ _ hpre hc
  refine ⟨ht, ?_⟩
  intro err h
  rw [ht] at h
  simp [ERR_REACHED_MAX_LIMIT, ERR_EXCEEDING_MAX_LIMIT] at h

/-- Worked instance of C2: with 100 uatom already sent inside the window and the cap 100, a
request for 7 uatom is refused with code 501. -/
theorem Transfer_reached_max_limit_witness :
    TotalTransferredAmount scenarioLib (scenarioFaucet Hour) "A" "uatom"
        (scenarioLedger [⟨"mun1faucet", "A", "100uatom", 100 * Hour - 10 * Minute⟩])
      = (.ret (100, none),
          scenarioLedger [⟨"mun1faucet", "A", "100uatom", 100 * Hour - 10 * Minute⟩]) ∧
    Transfer scenarioLib (scenarioFaucet Hour) "A" [⟨"uatom", 7⟩]
        (scenarioLedger [⟨"mun1faucet", "A", "100uatom", 100 * Hour - 10 * Minute⟩])
      = (.ret (501, some (.reachedMax 100 "uatom")),
          scenarioLedger [⟨"mun1faucet", "A", "100uatom", 100 * Hour - 10 * Minute⟩]) :=
  ⟨by decide,
    (Transfer_reached_max_limit scenarioLib (scenarioFaucet Hour) "A" [] [] ⟨"uatom", 7⟩
      (scenarioLedger [⟨"mun1faucet", "A", "100uatom", 100 * Hour - 10 * Minute⟩])
      (scenarioLedger [⟨"mun1faucet", "A", "100uatom", 100 * Hour - 10 * Minute⟩])
      (scenarioLedger [⟨"mun1faucet", "A", "100uatom", 100 * Hour - 10 * Minute⟩])
      [] 100 rfl (by decide) (by decide) (by decide)).1⟩

/-- Evaluation of the code at the input on which C3 fails: the cap is 100 uatom, 60 uatom
were sent inside the window, and the request asks for `2 ^ 64 - 50` uatom, a 64-bit value.
The total is below the cap and the sum exceeds it, yet the 64-bit sum wraps to 10 and
`Transfer` sends the coins and returns code 200. -/
theorem Transfer_exceeding_wraps :
    (TotalTransferredAmount scenarioLib (scenarioFaucet Hour) "A" "uatom"
        (scenarioLedger [priorSend])).1 = .ret (60, none) ∧
    (scenarioFaucet Hour).coinsMax "uatom" = 100 ∧
    18446744073709551566 < U64 ∧
    60 + 18446744073709551566 > 100 ∧
    (Transfer scenarioLib (scenarioFaucet Hour) "A" [⟨"uatom", 18446744073709551566⟩]
        (scenarioLedger [priorSend])).1 = .ret (NO_ERROR, none) ∧
    (Transfer scenarioLib (scenarioFaucet Hour) "A" [⟨"uatom", 18446744073709551566⟩]
        (scenarioLedger [priorSend])).2.confirmed
      = [priorSend, ⟨"mun1faucet", "A", "18446744073709551566uatom", 100 * Hour⟩] := by
  refine ⟨by decide, by decide, by decide, by decide, by decide, by decide⟩

theorem checkCoins_uncapped {σ : Type} (L : Lib σ) (f : Faucet σ) (toAccountAddress : String) :
    ∀ (coins : Coins) (coinsStr : List String) (s : σ),
      (∀ c ∈ coins, f.coinsMax c.Denom = 0) →
      (∀ s1 code err, checkCoins L f toAccountAddress coins coinsStr s = (.fail code err, s1) →
        code = ERR_CANT_FETCH_TOATL) ∧
      (totalsFetched L f toAccountAddress coins s = true →
        ∃ s1, checkCoins L f toAccountAddress coins coinsStr s
          = (.pass (coinsStr ++ coins.map Coin.String), s1)) := by
  intro coins
  induction coins with
  | nil => intro coinsStr s _; simp [checkCoins]
  | cons c rest ih =>
    intro coinsStr s hcap
    have hc0 := hcap c (List.mem_cons_self _ _)
    have hrest : ∀ c ∈ rest, f.coinsMax c.Denom = 0 :=
      fun c hc => hcap c (List.mem_cons_of_mem _ hc)
    simp only [checkCoins, checkCoin, totalsFetched]
    rcases ht : TotalTransferredAmount L f toAccountAddress c.Denom s with ⟨r, s2⟩
    cases r with
    | panic => simp
    | ret v =>
      obtain ⟨total, e⟩ := v
      cases e with
      | some err =>
        simp only [Prod.mk.injEq, Checked.fail.injEq]
        constructor
        · intro s1 code err1 h; exact h.1.1.symm
        · intro h; simp at h
      | none =>
        simp only [capCheck_uncapped f c total hc0]
        have := ih (coinsStr ++ [c.String]) s2 hrest
        simpa using this

/-- C4, as amended. When every coin of the request has cap 0, `Transfer` returns neither code
501 nor code 502, whatever was sent before and whatever is asked; and when moreover every
total asked along the run is returned without error, all coins pass and `Transfer` goes on to
the send of all the coins. -/
theorem Transfer_uncapped {σ : Type} (L : Lib σ) (f : Faucet σ) (toAccountAddress : String)
    (coins : Coins) (s : σ) (hcap : ∀ c ∈ coins, f.coinsMax c.Denom = 0) :
    (∀ err, (Transfer L f toAccountAddress coins s).1 ≠ .ret (ERR_REACHED_MAX_LIMIT, err)) ∧
    (∀ err, (Transfer L f toAccountAddress coins s).1 ≠ .ret (ERR_EXCEEDING_MAX_LIMIT, err)) ∧
    (totalsFetched L f toAccountAddress coins s = true →
      ∃ s1, checkCoins L f toAccountAddress coins [] s = (.pass (coins.map Coin.String), s1) ∧
        Transfer L f toAccountAddress coins s
          = sendCoins f toAccountAddress (coins.map Coin.String) s1) := by
  obtain ⟨hfail, hpass⟩ := checkCoins_uncapped L f toAccountAddress coins [] s hcap
  have key : ∀ code err, (Transfer L f toAccountAddress coins s).1 = .ret (code, err) →
      code = ERR_CANT_FETCH_TOATL ∨ code = ERR_ACCOUNT_NOT_AVAILABLE
        ∨ code = ERR_BALANCE_NOT_ENOUGH ∨ code = ERR_TX_FAILED ∨ code = NO_ERROR := by
    intro code err h
    unfold Transfer at h
    rcases hc : checkCoins L f toAccountAddress coins [] s with ⟨r, s1⟩
    rw [hc] at h
    cases r with
    | fail code1 err1 =>
      simp only [Go.ret.injEq, Prod.mk.injEq] at h
      have := hfail s1 code1 err1 hc
      exact Or.inl (h.1 ▸ this)
    | panic => simp at h
    | pass strs =>
      simp only [sendCoins, waitAndReturn] at h
      split at h
      · simp only [Go.ret.injEq, Prod.mk.injEq] at h; exact Or.inr (Or.inl h.1.symm)
      · split at h
        · simp only [Go.ret.injEq, Prod.mk.injEq] at h; exact Or.inr (Or.inr (Or.inl h.1.symm))
        · split at h
          · simp only [Go.ret.injEq, Prod.mk.injEq] at h
            exact Or.inr (Or.inr (Or.inr (Or.inl h.1.symm)))
          · simp only [Go.ret.injEq, Prod.mk.injEq] at h
            exact Or.inr (Or.inr (Or.inr (Or.inr h.1.symm)))
  refine ⟨?_, ?_, ?_⟩
  · intro err h
    have := key _ _ h
    simp [ERR_REACHED_MAX_LIMIT, ERR_CANT_FETCH_TOATL, ERR_ACCOUNT_NOT_AVAILABLE,
      ERR_BALANCE_NOT_ENOUGH, ERR_TX_FAILED, NO_ERROR] at this
  · intro err h
    have := key _ _ h
    simp [ERR_EXCEEDING_MAX_LIMIT, ERR_CANT_FETCH_TOATL, ERR_ACCOUNT_NOT_AVAILABLE,
      ERR_BALANCE_NOT_ENOUGH, ERR_TX_FAILED, NO_ERROR] at this
  · intro hf
    obtain ⟨s1, h1⟩ := hpass hf
    simp only [List.nil_append] at h1
    exact ⟨s1, h1, by simp only [Transfer, h1]⟩

/-- Worked instance of C4: stake has no cap in the scenario; with a million stake already sent
inside the window, a request for 5 stake passes and is sent. -/
theorem Transfer_uncapped_witness :
    (∀ c ∈ [Coin.mk "stake" 5], (scenarioFaucet Hour).coinsMax c.Denom = 0) ∧
    totalsFetched scenarioLib (scenarioFaucet Hour) "A" [⟨"stake", 5⟩]
        (scenarioLedger [⟨"mun1faucet", "A", "1000000stake", 100 * Hour - Minute⟩]) = true ∧
    (∃ s1, checkCoins scenarioLib (scenarioFaucet Hour) "A" [⟨"stake", 5⟩] []
          (scenarioLedger [⟨"mun1faucet", "A", "1000000stake", 100 * Hour - Minute⟩])
        = (.pass ["5stake"], s1) ∧
      Transfer scenarioLib (scenarioFaucet Hour) "A" [⟨"stake", 5⟩]
          (scenarioLedger [⟨"mun1faucet", "A", "1000000stake", 100 * Hour - Minute⟩])
        = sendCoins (scenarioFaucet Hour) "A" ["5stake"] s1) ∧
    (Transfer scenarioLib (scenarioFaucet Hour) "A" [⟨"stake", 5⟩]
        (scenarioLedger [⟨"mun1faucet", "A", "1000000stake", 100 * Hour - Minute⟩])).1
      = .ret (NO_ERROR, none) := by
  have hcap : ∀ c ∈ [Coin.mk "stake" 5], (scenarioFaucet Hour).coinsMax c.Denom = 0 := by
    intro c hc
    simp only [List.mem_singleton] at hc
    subst hc
    decide
  exact ⟨hcap, by decide,
    (Transfer_uncapped scenarioLib (scenarioFaucet Hour) "A" [⟨"stake", 5⟩]
      (scenarioLedger [⟨"mun1faucet", "A", "1000000stake", 100 * Hour - Minute⟩]) hcap).2.2
      (by decide),
    by decide⟩

/-- Inputs on which C4 fails as stated. Stake has cap 0 and both ledger queries succeed, yet
`Transfer` does not reach the send. With a recorded amount that does not parse, the total
cannot be computed and the call returns code 500, the ledger left as it was; with a recorded
amount of `2 ^ 64` stake, two hours old, the call panics. -/
theorem Transfer_uncapped_counterexample :
    (scenarioFaucet Hour).coinsMax "stake" = 0 ∧
    ((scenarioFaucet Hour).runner.ShowAccount "faucet"
          (scenarioLedger [⟨"mun1faucet", "A", "sixty", 100 * Hour - 10 * Minute⟩])
        = (.ok ⟨"faucet", "mun1faucet"⟩,
            scenarioLedger [⟨"mun1faucet", "A", "sixty", 100 * Hour - 10 * Minute⟩]) ∧
      (scenarioFaucet Hour).runner.QueryTxEvents
          (NewEventSelector "message" "sender" "mun1faucet")
          (NewEventSelector "transfer" "recipient" "A")
          (scenarioLedger [⟨"mun1faucet", "A", "sixty", 100 * Hour - 10 * Minute⟩])
        = (.ok [(Send.mk "mun1faucet" "A" "sixty" (100 * Hour - 10 * Minute)).event],
            scenarioLedger [⟨"mun1faucet", "A", "sixty", 100 * Hour - 10 * Minute⟩]) ∧
      Transfer scenarioLib (scenarioFaucet Hour) "A" [⟨"stake", 5⟩]
          (scenarioLedger [⟨"mun1faucet", "A", "sixty", 100 * Hour - 10 * Minute⟩])
        = (.ret (ERR_CANT_FETCH_TOATL, some (.msg "invalid coin expression")),
            scenarioLedger [⟨"mun1faucet", "A", "sixty", 100 * Hour - 10 * Minute⟩])) ∧
    ((scenarioFaucet Hour).runner.ShowAccount "faucet"
          (scenarioLedger [⟨"mun1faucet", "A", "18446744073709551616stake",
            100 * Hour - 2 * Hour⟩])
        = (.ok ⟨"faucet", "mun1faucet"⟩,
            scenarioLedger [⟨"mun1faucet", "A", "18446744073709551616stake",
              100 * Hour - 2 * Hour⟩]) ∧
      (scenarioFaucet Hour).runner.QueryTxEvents
          (NewEventSelector "message" "sender" "mun1faucet")
          (NewEventSelector "transfer" "recipient" "A")
          (scenarioLedger [⟨"mun1faucet", "A", "18446744073709551616stake",
            100 * Hour - 2 * Hour⟩])
        = (.ok [(Send.mk "mun1faucet" "A" "18446744073709551616stake"
              (100 * Hour - 2 * Hour)).event],
            scenarioLedger [⟨"mun1faucet", "A", "18446744073709551616stake",
              100 * Hour - 2 * Hour⟩]) ∧
      Transfer scenarioLib (scenarioFaucet Hour) "A" [⟨"stake", 5⟩]
          (scenarioLedger [⟨"mun1faucet", "A", "18446744073709551616stake",
            100 * Hour - 2 * Hour⟩])
        = (.panic,
            scenarioLedger [⟨"mun1faucet", "A", "18446744073709551616stake",
              100 * Hour - 2 * Hour⟩])) := by
  refine ⟨by decide, ⟨rfl, rfl, by decide⟩, ⟨rfl, rfl, by decide⟩⟩

/-! ## No send before every coin has passed -/

theorem bankSends_append (log1 log2 : List Call) :
    bankSends (log1 ++ log2) = bankSends log1 ++ bankSends log2 := by
  simp [bankSends, List.filter_append]

theorem TotalTransferredAmount_logged_bankSends {σ : Type} (L : Lib σ) (f : Faucet σ)
    (toAccountAddress denom : String) (st : σ × List Call) :
    bankSends (TotalTransferredAmount L.logged f.logged toAccountAddress denom st).2.2
      = bankSends st.2 := by
  unfold TotalTransferredAmount
  simp only [Faucet.logged, Runner.logged]
  rcases h1 : f.runner.ShowAccount f.accountName st.1 with ⟨r1, s1⟩
  cases r1 with
  | error err => simp [bankSends_append, bankSends]
  | ok fromAccount =>
    simp only []
    rcases h2 : f.runner.QueryTxEvents (NewEventSelector "message" "sender" fromAccount.Address)
      (NewEventSelector "transfer" "recipient" toAccountAddress) s1 with ⟨r2, s2⟩
    cases r2 with
    | error err => simp [bankSends_append, bankSends]
    | ok events =>
      simp only []
      split <;> simp [bankSends_append, bankSends]

theorem checkCoin_logged_bankSends {σ : Type} (L : Lib σ) (f : Faucet σ)
    (toAccountAddress : String) (c : Coin) (st : σ × List Call) :
    bankSends (checkCoin L.logged f.logged toAccountAddress c st).2.2 = bankSends st.2 := by
  have h := TotalTransferredAmount_logged_bankSends L f toAccountAddress c.Denom st
  unfold checkCoin
  split <;> simp_all

theorem checkCoins_logged_bankSends {σ : Type} (L : Lib σ) (f : Faucet σ)
    (toAccountAddress : String) :
    ∀ (coins : Coins) (coinsStr : List String) (st : σ × List Call),
      bankSends (checkCoins L.logged f.logged toAccountAddress coins coinsStr st).2.2
        = bankSends st.2 := by
  intro coins
  induction coins with
  | nil => intro coinsStr st; simp [checkCoins]
  | cons c rest ih =>
    intro coinsStr st
    have h := checkCoin_logged_bankSends L f toAccountAddress c st
    simp only [checkCoins]
    rcases hc : checkCoin L.logged f.logged toAccountAddress c st with ⟨r, st1⟩
    rw [hc] at h
    cases r with
    | pass => simp only []; rw [ih]; exact h
    | fail code err => exact h
    | panic => exact h

theorem sendCoins_logged_bankSends {σ : Type} (f : Faucet σ) (toAccountAddress : String)
    (coinsStr : List String) (st : σ × List Call) :
    bankSends (sendCoins f.logged toAccountAddress coinsStr st).2.2 = bankSends st.2 ∨
    ∃ sender, bankSends (sendCoins f.logged toAccountAddress coinsStr st).2.2
      = bankSends st.2 ++ [.BankSend sender toAccountAddress (",".intercalate coinsStr)] := by
  unfold sendCoins waitAndReturn
  simp only [Faucet.logged, Runner.logged]
  rcases h1 : f.runner.ShowAccount f.accountName st.1 with ⟨r1, s1⟩
  cases r1 with
  | error err => left; simp [bankSends_append, bankSends]
  | ok fromAccount =>
    right
    refine ⟨fromAccount.Address, ?_⟩
    simp only []
    rcases h2 : f.runner.BankSend fromAccount.Address toAccountAddress
      (",".intercalate coinsStr) s1 with ⟨r2, s2⟩
    cases r2 with
    | error err => simp [bankSends_append, bankSends]
    | ok txHash =>
      simp only []
      rcases h3 : f.runner.WaitTx txHash Second 30 s2 with ⟨r3, s3⟩
      cases r3 <;> simp [bankSends_append, bankSends]

theorem checkCoins_of_passInTurn {σ : Type} (L : Lib σ) (f : Faucet σ)
    (toAccountAddress : String) :
    ∀ (coins : Coins) (coinsStr : List String) (s s1 : σ),
      PassInTurn L f toAccountAddress coins s s1 →
      checkCoins L f toAccountAddress coins coinsStr s
        = (.pass (coinsStr ++ coins.map Coin.String), s1) := by
  intro coins
  induction coins with
  | nil =>
    intro coinsStr s s1 h
    simp only [PassInTurn] at h
    simp [checkCoins, h]
  | cons c rest ih =>
    intro coinsStr s s1 h
    simp only [PassInTurn] at h
    obtain ⟨s2, hc, hrest⟩ := h
    simp only [checkCoins, hc, ih (coinsStr ++ [c.String]) s2 s1 hrest]
    simp

theorem passInTurn_of_checkCoins {σ : Type} (L : Lib σ) (f : Faucet σ)
    (toAccountAddress : String) :
    ∀ (coins : Coins) (coinsStr strs : List String) (s s1 : σ),
      checkCoins L f toAccountAddress coins coinsStr s = (.pass strs, s1) →
      PassInTurn L f toAccountAddress coins s s1 := by
  intro coins
  induction coins with
  | nil =>
    intro coinsStr strs s s1 h
    simp only [checkCoins, Prod.mk.injEq] at h
    simp only [PassInTurn]
    exact h.2.symm
  | cons c rest ih =>
    intro coinsStr strs s s1 h
    simp only [checkCoins] at h
    rcases hc : checkCoin L f toAccountAddress c s with ⟨r, s2⟩
    rw [hc] at h
    cases r with
    | pass =>
      simp only [PassInTurn]
      exact ⟨s2, hc, ih _ _ _ _ h⟩
    | fail code err => simp at h
    | panic => simp at h

/-- C6. Run on a runner that records its calls, from an empty record, on a request of any
number of coins. When the coins before some coin pass their checks one after the other and
the check of that coin fails, `Transfer` returns the failure of that coin, with one of the
codes 500, 501, 502, and the record holds no send, so that none of the coins that passed is
sent. And whenever the record holds a send, every coin of the request has passed its check
in turn and the record holds exactly one send, to the recipient, carrying all the requested
coins in the order of the request. -/
theorem Transfer_all_or_nothing {σ : Type} (L : Lib σ) (f : Faucet σ)
    (toAccountAddress : String) (coins : Coins) (s : σ) :
    (∀ pre c post code err st1 st2, coins = pre ++ c :: post →
      PassInTurn L.logged f.logged toAccountAddress pre (s, []) st1 →
      checkCoin L.logged f.logged toAccountAddress c st1 = (.fail code err, st2) →
        Transfer L.logged f.logged toAccountAddress coins (s, [])
          = (.ret (code, some err), st2) ∧
        bankSends st2.2 = [] ∧
        (code = ERR_CANT_FETCH_TOATL ∨ code = ERR_REACHED_MAX_LIMIT
          ∨ code = ERR_EXCEEDING_MAX_LIMIT)) ∧
    (bankSends (Transfer L.logged f.logged toAccountAddress coins (s, [])).2.2 = [] ∨
      ∃ st sender,
        PassInTurn L.logged f.logged toAccountAddress coins (s, []) st ∧
        bankSends (Transfer L.logged f.logged toAccountAddress coins (s, [])).2.2
          = [.BankSend sender toAccountAddress
              (",".intercalate (coins.map Coin.String))]) := by
  constructor
  · intro pre c post code err st1 st2 hcoins hpre hc
    subst hcoins
    have hloop := checkCoins_of_passInTurn L.logged f.logged toAccountAddress pre [] _ _ hpre
    have hlog1 := checkCoins_logged_bankSends L f toAccountAddress pre [] (s, [])
    rw [hloop] at hlog1
    have hlog2 := checkCoin_logged_bankSends L f toAccountAddress c st1
    rw [hc] at hlog2
    refine ⟨Transfer_of_failing_coin L.logged f.logged toAccountAddress pre post c (s, [])
        st1 st2 _ code err hloop hc, ?_,
      checkCoin_fail_code L.logged f.logged toAccountAddress c st1 st2 code err hc⟩
    simp only [] at hlog1 hlog2
    rw [hlog2, hlog1]
    rfl
  · have hlog := checkCoins_logged_bankSends L f toAccountAddress coins [] (s, [])
    unfold Transfer
    rcases hc : checkCoins L.logged f.logged toAccountAddress coins [] (s, []) with ⟨r, st⟩
    rw [hc] at hlog
    have hst : bankSends st.2 = [] := by simpa [bankSends] using hlog
    cases r with
    | fail code err => left; exact hst
    | panic => left; exact hst
    | pass strs =>
      have hturn := passInTurn_of_checkCoins L.logged f.logged toAccountAddress coins [] strs
        _ _ hc
      have hstrs := checkCoins_pass L.logged f.logged toAccountAddress coins [] strs _ _ hc
      simp only [List.nil_append] at hstrs
      subst hstrs
      simp only []
      rcases sendCoins_logged_bankSends f toAccountAddress (coins.map Coin.String) st with h | h
      · left; rw [h, hst]
      · obtain ⟨sender, h⟩ := h
        right
        exact ⟨st, sender, hturn, by rw [h, hst]; rfl⟩

/-- Worked instance of C6 on requests of two coins, with 60 uatom sent inside the window and
the cap 100. Asked for 5 stake and 50 uatom, the stake passes, the uatom fail with code 502,
and the record holds the four queries and no send: the stake that passed is not sent. Asked
for 5 stake and 30 uatom, the record holds one send, of `5stake,30uatom`. -/
theorem Transfer_all_or_nothing_witness :
    PassInTurn scenarioLib.logged (scenarioFaucet Hour).logged "A" [⟨"stake", 5⟩]
        (scenarioLedger [priorSend], [])
        (scenarioLedger [priorSend],
          [.ShowAccount "faucet",
            .QueryTxEvents ⟨"message", "sender", "mun1faucet"⟩
              ⟨"transfer", "recipient", "A"⟩]) ∧
    Transfer scenarioLib.logged (scenarioFaucet Hour).logged "A"
        [⟨"stake", 5⟩, ⟨"uatom", 50⟩] (scenarioLedger [priorSend], [])
      = (.ret (502, some (.exceedingMax "uatom" 100)),
          (scenarioLedger [priorSend],
            [.ShowAccount "faucet",
              .QueryTxEvents ⟨"message", "sender", "mun1faucet"⟩
                ⟨"transfer", "recipient", "A"⟩,
              .ShowAccount "faucet",
              .QueryTxEvents ⟨"message", "sender", "mun1faucet"⟩
                ⟨"transfer", "recipient", "A"⟩])) ∧
    (Transfer scenarioLib.logged (scenarioFaucet Hour).logged "A"
        [⟨"stake", 5⟩, ⟨"uatom", 30⟩] (scenarioLedger [priorSend], [])).2.2
      = [.ShowAccount "faucet",
          .QueryTxEvents ⟨"message", "sender", "mun1faucet"⟩ ⟨"transfer", "recipient", "A"⟩,
          .ShowAccount "faucet",
          .QueryTxEvents ⟨"message", "sender", "mun1faucet"⟩ ⟨"transfer", "recipient", "A"⟩,
          .ShowAccount "faucet",
          .BankSend "mun1faucet" "A" "5stake,30uatom",
          .WaitTx "tx1" Second 30] := by
  have hpre : PassInTurn scenarioLib.logged (scenarioFaucet Hour).logged "A" [⟨"stake", 5⟩]
      (scenarioLedger [priorSend], [])
      (scenarioLedger [priorSend],
        [.ShowAccount "faucet",
          .QueryTxEvents ⟨"message", "sender", "mun1faucet"⟩
            ⟨"transfer", "recipient", "A"⟩]) := by
    simp only [PassInTurn]
    exact ⟨_, by decide, rfl⟩
  exact ⟨hpre,
    ((Transfer_all_or_nothing scenarioLib (scenarioFaucet Hour) "A"
      [⟨"stake", 5⟩, ⟨"uatom", 50⟩] (scenarioLedger [priorSend])).1
      [⟨"stake", 5⟩] ⟨"uatom", 50⟩ [] 502 (.exceedingMax "uatom" 100) _
      (scenarioLedger [priorSend],
        [.ShowAccount "faucet",
          .QueryTxEvents ⟨"message", "sender", "mun1faucet"⟩ ⟨"transfer", "recipient", "A"⟩,
          .ShowAccount "faucet",
          .QueryTxEvents ⟨"message", "sender", "mun1faucet"⟩ ⟨"transfer", "recipient", "A"⟩])
      rfl hpre (by decide)).1,
    by decide⟩

/-! ## The result of Transfer -/

theorem sendCoins_code {σ : Type} (f : Faucet σ) (toAccountAddress : String)
    (coinsStr : List String) (s : σ) (code : Nat) (err : Option Err)
    (h : (sendCoins f toAccountAddress coinsStr s).1 = .ret (code, err)) :
    (err = none ↔ code = NO_ERROR) := by
  unfold sendCoins waitAndReturn at h
  split at h
  · simp only [Go.ret.injEq, Prod.mk.injEq] at h
    rw [← h.1, ← h.2]; simp [ERR_ACCOUNT_NOT_AVAILABLE, NO_ERROR]
  · split at h
    · simp only [Go.ret.injEq, Prod.mk.injEq] at h
      rw [← h.1, ← h.2]; simp [ERR_BALANCE_NOT_ENOUGH, NO_ERROR]
    · split at h
      · simp only [Go.ret.injEq, Prod.mk.injEq] at h
        rw [← h.1, ← h.2]; simp [ERR_TX_FAILED, NO_ERROR]
      · simp only [Go.ret.injEq, Prod.mk.injEq] at h
        rw [← h.1, ← h.2]; simp

theorem sendCoins_success {σ : Type} (f : Faucet σ) (toAccountAddress : String)
    (coinsStr : List String) (s : σ) :
    (sendCoins f toAccountAddress coinsStr s).1 = .ret (NO_ERROR, none) ↔
      ∃ fromAccount s2 txHash s3 s4,
        f.runner.ShowAccount f.accountName s = (.ok fromAccount, s2) ∧
        f.runner.BankSend fromAccount.Address toAccountAddress (",".intercalate coinsStr) s2
          = (.ok txHash, s3) ∧
        f.runner.WaitTx txHash Second 30 s3 = (none, s4) := by
  unfold sendCoins waitAndReturn
  rcases h1 : f.runner.ShowAccount f.accountName s with ⟨r1, s2⟩
  cases r1 with
  | error err => simp [ERR_ACCOUNT_NOT_AVAILABLE, NO_ERROR]
  | ok fromAccount =>
    simp only []
    rcases h2 : f.runner.BankSend fromAccount.Address toAccountAddress
      (",".intercalate coinsStr) s2 with ⟨r2, s3⟩
    cases r2 with
    | error err =>
      simp only [Go.ret.injEq, Prod.mk.injEq, ERR_BALANCE_NOT_ENOUGH, NO_ERROR]
      constructor
      · intro h; simp at h
      · rintro ⟨a, t2, tx, t3, t4, ha, hb, _⟩
        simp only [Prod.mk.injEq, Except.ok.injEq] at ha
        obtain ⟨ha1, ha2⟩ := ha
        subst ha1 ha2
        rw [h2] at hb
        simp at hb
    | ok txHash =>
      simp only []
      rcases h3 : f.runner.WaitTx txHash Second 30 s3 with ⟨r3, s4⟩
      cases r3 with
      | some err =>
        simp only [Go.ret.injEq, Prod.mk.injEq, ERR_TX_FAILED, NO_ERROR]
        constructor
        · intro h; simp at h
        · rintro ⟨a, t2, tx, t3, t4, ha, hb, hw⟩
          simp only [Prod.mk.injEq, Except.ok.injEq] at ha
          obtain ⟨ha1, ha2⟩ := ha
          subst ha1 ha2
          rw [h2] at hb
          simp only [Prod.mk.injEq, Except.ok.injEq] at hb
          obtain ⟨hb1, hb2⟩ := hb
          subst hb1 hb2
          rw [h3] at hw
          simp at hw
      | none =>
        simp only [true_iff]
        exact ⟨fromAccount, s2, txHash, s3, s4, rfl, h2, h3⟩

/-- C8. `Transfer` returns code 200 without error exactly when every coin passes its checks
and the account resolution, the send of all coins and the wait for the confirmation, asked
with an interval of one second and 30 attempts, all succeed; a returned result has no error
exactly when its code is 200; and the first failing step decides the code: 500 with the error
of the total that could not be fetched, 503 with the error of the account resolution, 504
with the error of the send, 505 with the error of the wait. -/
theorem Transfer_result {σ : Type} (L : Lib σ) (f : Faucet σ) (toAccountAddress : String)
    (coins : Coins) (s : σ) :
    ((Transfer L f toAccountAddress coins s).1 = .ret (NO_ERROR, none) ↔
      ∃ s1 fromAccount s2 txHash s3 s4,
        checkCoins L f toAccountAddress coins [] s = (.pass (coins.map Coin.String), s1) ∧
        f.runner.ShowAccount f.accountName s1 = (.ok fromAccount, s2) ∧
        f.runner.BankSend fromAccount.Address toAccountAddress
          (",".intercalate (coins.map Coin.String)) s2 = (.ok txHash, s3) ∧
        f.runner.WaitTx txHash Second 30 s3 = (none, s4)) ∧
    (∀ code err, (Transfer L f toAccountAddress coins s).1 = .ret (code, err) →
      (err = none ↔ code = NO_ERROR)) ∧
    (∀ pre c post strs s1 v err s2, coins = pre ++ c :: post →
      checkCoins L f toAccountAddress pre [] s = (.pass strs, s1) →
      TotalTransferredAmount L f toAccountAddress c.Denom s1 = (.ret (v, some err), s2) →
      Transfer L f toAccountAddress coins s = (.ret (ERR_CANT_FETCH_TOATL, some err), s2)) ∧
    (∀ s1, checkCoins L f toAccountAddress coins [] s = (.pass (coins.map Coin.String), s1) →
      (∀ err s2, f.runner.ShowAccount f.accountName s1 = (.error err, s2) →
        Transfer L f toAccountAddress coins s
          = (.ret (ERR_ACCOUNT_NOT_AVAILABLE, some err), s2)) ∧
      (∀ fromAccount s2, f.runner.ShowAccount f.accountName s1 = (.ok fromAccount, s2) →
        (∀ err s3, f.runner.BankSend fromAccount.Address toAccountAddress
            (",".intercalate (coins.map Coin.String)) s2 = (.error err, s3) →
          Transfer L f toAccountAddress coins s
            = (.ret (ERR_BALANCE_NOT_ENOUGH, some err), s3)) ∧
        (∀ txHash s3, f.runner.BankSend fromAccount.Address toAccountAddress
            (",".intercalate (coins.map Coin.String)) s2 = (.ok txHash, s3) →
          ∀ err s4, f.runner.WaitTx txHash Second 30 s3 = (some err, s4) →
            Transfer L f toAccountAddress coins s = (.ret (ERR_TX_FAILED, some err), s4)))) := by
  refine ⟨?_, ?_, ?_, ?_⟩
  · unfold Transfer
    rcases hc : checkCoins L f toAccountAddress coins [] s with ⟨r, s1⟩
    cases r with
    | fail code err =>
      simp only [Go.ret.injEq, Prod.mk.injEq]
      constructor
      · intro h; simp at h
      · rintro ⟨t1, _, _, _, _, _, h, _⟩; simp at h
    | panic =>
      constructor
      · intro h; simp at h
      · rintro ⟨t1, _, _, _, _, _, h, _⟩; simp at h
    | pass strs =>
      have hstrs := checkCoins_pass L f toAccountAddress coins [] strs _ _ hc
      simp only [List.nil_append] at hstrs
      subst hstrs
      simp only [sendCoins_success]
      constructor
      · rintro ⟨a, t2, tx, t3, t4, h1, h2, h3⟩
        exact ⟨s1, a, t2, tx, t3, t4, rfl, h1, h2, h3⟩
      · rintro ⟨t1, a, t2, tx, t3, t4, h0, h1, h2, h3⟩
        simp only [Prod.mk.injEq, true_and] at h0
        subst h0
        exact ⟨a, t2, tx, t3, t4, h1, h2, h3⟩
  · intro code err h
    unfold Transfer at h
    rcases hc : checkCoins L f toAccountAddress coins [] s with ⟨r, s1⟩
    rw [hc] at h
    cases r with
    | fail code1 err1 =>
      simp only [Go.ret.injEq, Prod.mk.injEq] at h
      have hcode := checkCoins_fail_code L f toAccountAddress coins [] _ _ _ _ hc
      rw [← h.1, ← h.2]
      rcases hcode with h1 | h1 | h1 <;>
        simp [h1, ERR_CANT_FETCH_TOATL, ERR_REACHED_MAX_LIMIT, ERR_EXCEEDING_MAX_LIMIT, NO_ERROR]
    | panic => simp at h
    | pass strs => exact sendCoins_code f toAccountAddress strs s1 code err h
  · intro pre c post strs s1 v err s2 hcoins hpre htotal
    subst hcoins
    exact Transfer_of_failing_coin L f toAccountAddress pre post c s s1 s2 strs _ _ hpre
      (checkCoin_of_error L f toAccountAddress c s1 s2 v err htotal)
  · intro s1 hc
    refine ⟨?_, ?_⟩
    · intro err s2 h1
      simp only [Transfer, hc, sendCoins, h1]
    · intro fromAccount s2 h1
      refine ⟨?_, ?_⟩
      · intro err s3 h2
        simp only [Transfer, hc, sendCoins, h1, h2]
      · intro txHash s3 h2 err s4 h3
        simp only [Transfer, hc, sendCoins, h1, h2, waitAndReturn, h3]

/-- Worked instance of C8: on a ledger that confirms nothing, the request of 30 uatom of the
scenario is submitted and the call returns code 505, the send still awaiting confirmation. -/
theorem Transfer_result_witness :
    Transfer scenarioLib (scenarioFaucet Hour) "A" [⟨"uatom", 30⟩]
        { scenarioLedger [priorSend] with stalled := true }
      = (.ret (505, some (.msg "timeout waiting for tx")),
          { scenarioLedger [priorSend] with
            stalled := true
            pending := some ("tx1", ⟨"mun1faucet", "A", "30uatom", 100 * Hour⟩) }) :=
  ((((Transfer_result scenarioLib (scenarioFaucet Hour) "A" [⟨"uatom", 30⟩]
      { scenarioLedger [priorSend] with stalled := true }).2.2.2
      { scenarioLedger [priorSend] with stalled := true } (by decide)).2
      ⟨"faucet", "mun1faucet"⟩ { scenarioLedger [priorSend] with stalled := true } rfl).2
      "tx1"
      { scenarioLedger [priorSend] with
        stalled := true
        pending := some ("tx1", ⟨"mun1faucet", "A", "30uatom", 100 * Hour⟩) } rfl)
    (.msg "timeout waiting for tx")
    { scenarioLedger [priorSend] with
      stalled := true
      pending := some ("tx1", ⟨"mun1faucet", "A", "30uatom", 100 * Hour⟩) } (by decide)

/-! ## The request checks of the handler -/

/-- The request checks that answer 400: a missing cookie, a failed verification and a malformed
body each write a bad-request response with the text of the error, leave the state as it was
and do not depend on the transfer method. -/
theorem faucetHandler_rejects {σ : Type} (f : Faucet σ)
    (decode : String → Except Err TransferRequest)
    (transfer : String → σ → Go (Nat × Option Err) × σ) (r : Request) (s : σ) :
    (∀ err, r.Cookie "response" = .error err →
      faucetHandler f decode transfer r s
        = (.ret (some ⟨StatusBadRequest, ⟨err.Error⟩⟩), s)) ∧
    (∀ cookie err, r.Cookie "response" = .ok cookie →
      r.Referer = r.Origin ++ "/" → r.Referer = f.configuration.Referer →
      f.captcha cookie.Value = some err →
      faucetHandler f decode transfer r s
        = (.ret (some ⟨StatusBadRequest, ⟨err.Error⟩⟩), s)) ∧
    (∀ cookie err, r.Cookie "response" = .ok cookie →
      r.Referer = r.Origin ++ "/" → r.Referer = f.configuration.Referer →
      f.captcha cookie.Value = none → decode r.Body = .error err →
      faucetHandler f decode transfer r s
        = (.ret (some ⟨StatusBadRequest, ⟨err.Error⟩⟩), s)) := by
  refine ⟨?_, ?_, ?_⟩
  · intro err h
    simp [faucetHandler, h, responseError]
  · intro cookie err h h1 h2 h3
    simp [faucetHandler, h, ← h2, h1, h3, responseError]
  · intro cookie err h h1 h2 h3 h4
    simp [faucetHandler, h, ← h2, h1, h3, h4, responseError]

/-- The referer check: with the cookie present, a referer that differs from the origin or
from the configured referer makes the handler panic, whatever the transfer method is; no
response is written. -/
theorem faucetHandler_referer_mismatch {σ : Type} (f : Faucet σ)
    (decode : String → Except Err TransferRequest)
    (transfer : String → σ → Go (Nat × Option Err) × σ) (r : Request) (s : σ) (cookie : Cookie)
    (hcookie : r.Cookie "response" = .ok cookie)
    (hreferer : r.Referer ≠ r.Origin ++ "/" ∨ r.Referer ≠ f.configuration.Referer) :
    faucetHandler f decode transfer r s = (.panic, s) := by
  simp only [faucetHandler, hcookie, responseError]
  rw [if_pos hreferer]

/-- Evaluation of the code at the input on which C9 fails: the verification cookie is present
and the referer is not the configured one. The handler panics on the nil error it passes to
`responseError`: no response is written, neither 400 nor another, and the ledger is left as
it was. -/
theorem faucetHandler_referer_panics :
    (scenarioFaucet Hour).configuration.Referer = "https://faucet.example/" ∧
    faucetHandler (scenarioFaucet Hour) decodeAddress scenarioTransfer
        ⟨[⟨"response", "human"⟩], "https://other.example/", "https://other.example", "A"⟩
        (scenarioLedger [])
      = (.panic, scenarioLedger []) ∧
    faucetHandler (scenarioFaucet Hour) decodeAddress scenarioTransfer
        ⟨[], "https://other.example/", "https://other.example", "A"⟩ (scenarioLedger [])
      = (.ret (some ⟨400, ⟨"http: named cookie not present"⟩⟩), scenarioLedger []) := by
  refine ⟨by decide, by decide, by decide⟩

/-! ## The coins of a new faucet -/

theorem foldl_apply_coins {σ : Type} :
    ∀ (options : List FaucetOption) (f : Faucet σ),
      (options.foldl (fun f apply => apply.apply f) f).coins = f.coins ++ optionCoins options := by
  intro options
  induction options with
  | nil => intro f; simp [optionCoins]
  | cons o rest ih =>
    intro f
    simp only [List.foldl_cons, ih]
    cases o <;> simp [FaucetOption.apply, optionCoins]

theorem configure_coins {σ : Type} (ccr : Runner σ) (conf : Config) (c : String → Option Err)
    (options : List FaucetOption) :
    (configure (newFaucet ccr conf c) options).coins
      = if optionCoins options = [] then [⟨DefaultDenom, DefaultAmount⟩]
        else optionCoins options := by
  have h := foldl_apply_coins options (newFaucet ccr conf c)
  rw [show (newFaucet ccr conf c).coins = [] from rfl, List.nil_append] at h
  unfold configure
  generalize List.foldl (fun f apply => apply.apply f) (newFaucet ccr conf c) options = g at h ⊢
  simp only [List.length_eq_zero, h]
  by_cases he : optionCoins options = []
  · simp only [he, if_true]
    split_ifs <;> simp [FaucetOption.apply, h, he]
  · simp only [he, if_false]
    split_ifs <;> simp [FaucetOption.apply, h]

/-- C10, as amended. The coin list of the faucet `New` returns holds the coins of the `Coin`
options in the order given, or the default coin alone when there is none: its first entry is
the first coin added, and its denominations are pairwise distinct exactly when those of the
`Coin` options are. -/
theorem New_coins {σ : Type} (ccr : Runner σ) (conf : Config) (c : String → Option Err)
    (options : List FaucetOption) (s : σ) (f : Faucet σ)
    (h : (New ccr conf c options s).1 = .ok f) :
    f.coins = (if optionCoins options = [] then [⟨DefaultDenom, DefaultAmount⟩]
      else optionCoins options) ∧
    f.coins.head? = some ((optionCoins options).headD ⟨DefaultDenom, DefaultAmount⟩) ∧
    ((f.coins.map Coin.Denom).Nodup ↔ ((optionCoins options).map Coin.Denom).Nodup) := by
  have hcoins : f.coins = (configure (newFaucet ccr conf c) options).coins := by
    unfold New at h
    simp only [] at h
    split at h
    · simp at h
    · split_ifs at h
      · split at h
        · simp at h
        · simp only [Except.ok.injEq] at h
          rw [← h]
      · simp only [Except.ok.injEq] at h
        rw [← h]
  rw [configure_coins] at hcoins
  refine ⟨hcoins, ?_, ?_⟩
  · rw [hcoins]
    cases hO : optionCoins options <;> simp
  · rw [hcoins]
    cases hO : optionCoins options <;> simp

/-- Worked instance of C10: two coins of distinct denominations among other options. -/
theorem New_coins_witness :
    newCoins (New Ledger.runner (scenarioFaucet Hour).configuration (scenarioFaucet Hour).captcha
        [.Coin 5 50 "stake", .RefreshWindow Hour, .Coin 10 100 "uatom", .ChainID "mun"]
        (scenarioLedger [])) = some [⟨"stake", 5⟩, ⟨"uatom", 10⟩] ∧
    (configure (newFaucet Ledger.runner (scenarioFaucet Hour).configuration
        (scenarioFaucet Hour).captcha)
        [.Coin 5 50 "stake", .RefreshWindow Hour, .Coin 10 100 "uatom", .ChainID "mun"]).coins.head?
      = some ⟨"stake", 5⟩ :=
  ⟨by decide,
    (New_coins Ledger.runner (scenarioFaucet Hour).configuration (scenarioFaucet Hour).captcha
      [.Coin 5 50 "stake", .RefreshWindow Hour, .Coin 10 100 "uatom", .ChainID "mun"]
      (scenarioLedger []) _ rfl).2.1⟩

/-- Input on which C10 fails as stated: two `Coin` options of the same denomination give a
coin list that holds the denomination twice. -/
theorem New_duplicate_denominations :
    newCoins (New Ledger.runner (scenarioFaucet Hour).configuration (scenarioFaucet Hour).captcha
        [.Coin 10 100 "uatom", .Coin 20 200 "uatom"] (scenarioLedger []))
      = some [⟨"uatom", 10⟩, ⟨"uatom", 20⟩] ∧
    ([Coin.mk "uatom" 10, Coin.mk "uatom" 20].map Coin.Denom).Nodup = False := by
  refine ⟨by decide, by decide⟩

/-! ## The cumulative spend after a transfer, on the ledger -/

theorem eventLoop_append {σ : Type} (L : Lib σ) (denom : String) (now window : Int) :
    ∀ (xs ys : List Event) (totalAmount : Nat),
      eventLoop L denom now window (xs ++ ys) totalAmount
        = match eventLoop L denom now window xs totalAmount with
          | .next t => eventLoop L denom now window ys t
          | other => other := by
  intro xs
  induction xs with
  | nil => intro ys totalAmount; simp [eventLoop]
  | cons x xs ih =>
    intro ys totalAmount
    simp only [List.cons_append, eventLoop]
    by_cases ht : x.Typ = "transfer"
    · simp only [ht, if_true]
      cases attrLoop L denom (now - x.Time) window x.Attributes totalAmount with
      | next t => exact ih ys t
      | ret err => rfl
      | panic => rfl
    · simp only [ht, if_false]
      exact ih ys totalAmount

theorem requestedAmount_of_nodup :
    ∀ (coins : Coins) (c : Coin), (coins.map Coin.Denom).Nodup → c ∈ coins →
      requestedAmount coins c.Denom = c.Amount := by
  intro coins
  induction coins with
  | nil => intro c _ hc; simp at hc
  | cons x rest ih =>
    intro c hnodup hc
    simp only [List.map_cons, List.nodup_cons, List.mem_map, not_exists, not_and] at hnodup
    obtain ⟨hx, hrest⟩ := hnodup
    simp only [List.mem_cons] at hc
    rcases hc with hc | hc
    · subst hc
      have hnone : rest.filter (fun y => y.Denom = c.Denom) = [] := by
        rw [List.filter_eq_nil_iff]
        intro y hy
        simpa using hx y hy
      simp [requestedAmount, List.filter_cons, hnone]
    · have hne : x.Denom ≠ c.Denom := fun h => hx c hc h.symm
      have := ih c hrest hc
      simp only [requestedAmount] at this ⊢
      simp [List.filter_cons, hne, this]

theorem Ledger.TotalTransferredAmount_eq (parse : String → Except Err Coins) (f : Faucet Ledger)
    (hrun : f.runner = Ledger.runner) (toAccountAddress denom : String) (s : Ledger) :
    TotalTransferredAmount (Ledger.lib parse) f toAccountAddress denom s
      = match s.keyring.find? (fun a => a.Name == f.accountName) with
        | none => (.ret (0, some (.msg "account not found")), s)
        | some fromAccount =>
          match eventLoop (Ledger.lib parse) denom s.now f.limitRefreshWindow
              (s.events fromAccount.Address toAccountAddress) 0 with
          | .next totalAmount => (.ret (totalAmount, none), s)
          | .ret err => (.ret (0, some err), s)
          | .panic => (.panic, s) := by
  unfold TotalTransferredAmount
  rw [hrun]
  simp only [Ledger.runner, Ledger.ShowAccount, Ledger.QueryTxEvents, Ledger.lib, Ledger.events]
  cases s.keyring.find? (fun a => a.Name == f.accountName) <;> rfl

theorem Ledger.TotalTransferredAmount_state (parse : String → Except Err Coins)
    (f : Faucet Ledger) (hrun : f.runner = Ledger.runner) (toAccountAddress denom : String)
    (s : Ledger) :
    (TotalTransferredAmount (Ledger.lib parse) f toAccountAddress denom s).2 = s := by
  rw [Ledger.TotalTransferredAmount_eq parse f hrun]
  cases s.keyring.find? (fun a => a.Name == f.accountName) with
  | none => rfl
  | some fromAccount =>
    simp only []
    cases eventLoop (Ledger.lib parse) denom s.now f.limitRefreshWindow
      (s.events fromAccount.Address toAccountAddress) 0 <;> rfl

theorem Ledger.checkCoin_state (parse : String → Except Err Coins) (f : Faucet Ledger)
    (hrun : f.runner = Ledger.runner) (toAccountAddress : String) (c : Coin) (s : Ledger) :
    (checkCoin (Ledger.lib parse) f toAccountAddress c s).2 = s := by
  have h := Ledger.TotalTransferredAmount_state parse f hrun toAccountAddress c.Denom s
  unfold checkCoin
  split <;> simp_all

theorem Ledger.checkCoins_unchanged (parse : String → Except Err Coins) (f : Faucet Ledger)
    (hrun : f.runner = Ledger.runner) (toAccountAddress : String) :
    ∀ (coins : Coins) (coinsStr strs : List String) (s s1 : Ledger),
      checkCoins (Ledger.lib parse) f toAccountAddress coins coinsStr s = (.pass strs, s1) →
      s1 = s ∧ ∀ c ∈ coins, checkCoin (Ledger.lib parse) f toAccountAddress c s = (.pass, s) := by
  intro coins
  induction coins with
  | nil =>
    intro coinsStr strs s s1 h
    simp only [checkCoins, Prod.mk.injEq] at h
    exact ⟨h.2.symm, by simp⟩
  | cons c rest ih =>
    intro coinsStr strs s s1 h
    have hst := Ledger.checkCoin_state parse f hrun toAccountAddress c s
    simp only [checkCoins] at h
    rcases hc : checkCoin (Ledger.lib parse) f toAccountAddress c s with ⟨r, s2⟩
    rw [hc] at h hst
    simp only [] at hst
    subst hst
    cases r with
    | pass =>
      obtain ⟨h1, h2⟩ := ih _ _ _ _ h
      refine ⟨h1, ?_⟩
      intro c1 hc1
      simp only [List.mem_cons] at hc1
      rcases hc1 with hc1 | hc1
      · subst hc1; exact hc
      · exact h2 c1 hc1
    | fail code err => simp at h
    | panic => simp at h

/-- On the ledger a successful send leaves the ledger with the send appended to the
confirmed ones. -/
theorem Ledger.sendCoins_appends (f : Faucet Ledger) (hrun : f.runner = Ledger.runner)
    (toAccountAddress : String) (coinsStr : List String) (s s1 : Ledger)
    (h : sendCoins f toAccountAddress coinsStr s = (.ret (NO_ERROR, none), s1)) :
    ∃ fromAccount, s.keyring.find? (fun a => a.Name == f.accountName) = some fromAccount ∧
      s1 = { s with
        pending := none
        confirmed := s.confirmed ++
          [⟨fromAccount.Address, toAccountAddress, ",".intercalate coinsStr, s.now⟩] } := by
  unfold sendCoins waitAndReturn at h
  rw [hrun] at h
  simp only [Ledger.runner, Ledger.ShowAccount, Ledger.BankSend, Ledger.WaitTx] at h
  cases hk : s.keyring.find? (fun a => a.Name == f.accountName) with
  | none =>
    rw [hk] at h
    simp [ERR_ACCOUNT_NOT_AVAILABLE, NO_ERROR] at h
  | some fromAccount =>
    rw [hk] at h
    refine ⟨fromAccount, rfl, ?_⟩
    simp only [] at h
    split_ifs at h with h1
    · simp only [] at h
      split_ifs at h with h2
      · simp only [Prod.mk.injEq] at h
        exact h.2.symm
      · simp [ERR_TX_FAILED, NO_ERROR] at h
    · simp [ERR_BALANCE_NOT_ENOUGH, NO_ERROR] at h

theorem capCheck_pass_bound {σ : Type} (f : Faucet σ) (c : Coin) (totalSent : Nat)
    (hcap : 0 < f.coinsMax c.Denom) (h : capCheck f c totalSent = .pass) :
    totalSent < f.coinsMax c.Denom ∧ c.Amount < U64
      ∧ (totalSent + c.Amount) % U64 ≤ f.coinsMax c.Denom := by
  have h0 : f.coinsMax c.Denom ≠ 0 := by omega
  unfold capCheck at h
  rw [if_pos h0] at h
  split_ifs at h with h1
  unfold Uint64 at h
  split_ifs at h with h2
  simp only [] at h
  split_ifs at h with h3
  exact ⟨by omega, h2, by omega⟩

theorem eventLoop_new_send (parse : String → Except Err Coins) (denom : String)
    (now window : Int) (t : Send) (totalAmount : Nat) (parsed : Coins)
    (hwin : 0 < window) (htime : t.time = now)
    (hparse : parse t.amount = .ok parsed)
    (hfit : totalAmount + parsed.AmountOf denom < U64) :
    eventLoop (Ledger.lib parse) denom now window [t.event] totalAmount
      = .next (totalAmount + parsed.AmountOf denom) := by
  have hwf : WellFormedEvents (Ledger.lib parse) denom [t.event] := by
    intro event he _ attr ha hk
    simp only [List.mem_singleton] at he
    subst he
    simp only [Send.event, List.mem_cons, List.mem_singleton, List.not_mem_nil, or_false] at ha
    rcases ha with h | h | h
    · subst h; exact absurd (show "recipient" = "amount" from hk) (by decide)
    · subst h; exact absurd (show "sender" = "amount" from hk) (by decide)
    · subst h; exact ⟨parsed, hparse, by omega⟩
  have hrecipient : ¬ ("recipient" = "amount") := by decide
  have hsender : ¬ ("sender" = "amount") := by decide
  have hw : windowTotal (Ledger.lib parse) denom now window [t.event]
      = parsed.AmountOf denom := by
    have h0 : now - t.time < window := by omega
    simp [windowTotal, eventAmount, attrAmount, Send.event, Ledger.lib, h0, hparse,
      hrecipient, hsender]
  have := eventLoop_of_wellFormed (Ledger.lib parse) denom now window [t.event] totalAmount hwf
    (by rw [hw]; exact hfit)
  rw [hw] at this
  exact this

theorem Ledger.events_append (s : Ledger) (t : Send) (sender recipient : String)
    (hs : t.sender = sender) (hr : t.recipient = recipient) :
    Ledger.events { s with pending := none, confirmed := s.confirmed ++ [t] } sender recipient
      = s.events sender recipient ++ [t.event] := by
  simp [Ledger.events, List.filter_append, Send.matchesSelector, NewEventSelector, hs, hr,
    List.filter_cons]

/-- C7, as amended. On the ledger that records every confirmed send as a transfer event, with
a positive refresh window: for a request of pairwise distinct denominations and a denomination
of the request with cap C > 0, if the total before the transfer is returned without error,
`Transfer` succeeds, the recorded amount parses back to the requested amount of the
denomination, and the total before plus that amount is below `2 ^ 64`, then the total right
after the transfer is the total before plus the amount requested in that denomination, and it
does not exceed C. -/
theorem Transfer_cumulative (parse : String → Except Err Coins) (f : Faucet Ledger)
    (hrun : f.runner = Ledger.runner) (toAccountAddress : String) (coins : Coins) (c : Coin)
    (s s1 : Ledger) (before : Nat)
    (hwin : 0 < f.limitRefreshWindow)
    (hnodup : (coins.map Coin.Denom).Nodup) (hc : c ∈ coins)
    (hcap : 0 < f.coinsMax c.Denom)
    (hbefore : TotalTransferredAmount (Ledger.lib parse) f toAccountAddress c.Denom s
      = (.ret (before, none), s))
    (hok : Transfer (Ledger.lib parse) f toAccountAddress coins s = (.ret (NO_ERROR, none), s1))
    (hparse : ∃ parsed, parse (",".intercalate (coins.map Coin.String)) = .ok parsed
      ∧ parsed.AmountOf c.Denom = requestedAmount coins c.Denom)
    (hfit : before + requestedAmount coins c.Denom < U64) :
    TotalTransferredAmount (Ledger.lib parse) f toAccountAddress c.Denom s1
        = (.ret (before + requestedAmount coins c.Denom, none), s1) ∧
      before + requestedAmount coins c.Denom ≤ f.coinsMax c.Denom := by
  have hreq := requestedAmount_of_nodup coins c hnodup hc
  rw [hreq] at hparse hfit ⊢
  obtain ⟨parsed, hparsed, hamount⟩ := hparse
  -- the checks passed and left the ledger as it was
  unfold Transfer at hok
  rcases hcheck : checkCoins (Ledger.lib parse) f toAccountAddress coins [] s with ⟨r, s2⟩
  rw [hcheck] at hok
  cases r with
  | fail code err => simp at hok
  | panic => simp at hok
  | pass strs =>
    simp only [] at hok
    have hstrs := checkCoins_pass (Ledger.lib parse) f toAccountAddress coins [] strs s s2 hcheck
    simp only [List.nil_append] at hstrs
    obtain ⟨hs2, hall⟩ :=
      Ledger.checkCoins_unchanged parse f hrun toAccountAddress coins [] strs s s2 hcheck
    subst hs2 hstrs
    -- the cap check of the coin
    have hcoin := hall c hc
    rw [checkCoin_of_total (Ledger.lib parse) f toAccountAddress c s2 s2 before hbefore] at hcoin
    simp only [Prod.mk.injEq, and_true] at hcoin
    obtain ⟨_, _, hmod⟩ := capCheck_pass_bound f c before hcap hcoin
    rw [Nat.mod_eq_of_lt hfit] at hmod
    refine ⟨?_, hmod⟩
    -- the ledger after the send
    obtain ⟨fromAccount, hk, hs1⟩ :=
      Ledger.sendCoins_appends f hrun toAccountAddress _ s2 s1 hok
    rw [Ledger.TotalTransferredAmount_eq parse f hrun] at hbefore ⊢
    rw [hk] at hbefore
    have hk1 : s1.keyring.find? (fun a => a.Name == f.accountName) = some fromAccount := by
      rw [hs1]; exact hk
    rw [hk1]
    simp only [] at hbefore ⊢
    have hloop : eventLoop (Ledger.lib parse) c.Denom s2.now f.limitRefreshWindow
        (s2.events fromAccount.Address toAccountAddress) 0 = .next before := by
      cases hl : eventLoop (Ledger.lib parse) c.Denom s2.now f.limitRefreshWindow
          (s2.events fromAccount.Address toAccountAddress) 0 with
      | next t =>
        rw [hl] at hbefore
        simp only [Prod.mk.injEq, Go.ret.injEq, and_true] at hbefore
        rw [hbefore]
      | ret err => rw [hl] at hbefore; simp at hbefore
      | panic => rw [hl] at hbefore; simp at hbefore
    have hnow : s1.now = s2.now := by rw [hs1]
    have hevents : s1.events fromAccount.Address toAccountAddress
        = s2.events fromAccount.Address toAccountAddress ++
          [(Send.mk fromAccount.Address toAccountAddress
            (",".intercalate (coins.map Coin.String)) s2.now).event] := by
      rw [hs1]
      exact Ledger.events_append s2 _ _ _ rfl rfl
    have hnew := eventLoop_new_send parse c.Denom s2.now f.limitRefreshWindow
      (Send.mk fromAccount.Address toAccountAddress
        (",".intercalate (coins.map Coin.String)) s2.now) before parsed hwin rfl hparsed
      (by rw [hamount]; exact hfit)
    rw [hamount] at hnew
    rw [hnow, hevents, eventLoop_append, hloop]
    simp only [hnew]

/-- Worked instance of C7, the scenario of the specification: the cap is 100 uatom, the
window one hour, and 60 uatom were sent ten minutes ago. A request for 50 uatom is refused
with code 502; a request for 30 uatom succeeds and the total becomes 90, within the cap. -/
theorem Transfer_cumulative_witness :
    (Transfer scenarioLib (scenarioFaucet Hour) "A" [⟨"uatom", 50⟩]
        (scenarioLedger [priorSend])).1 = .ret (502, some (.exceedingMax "uatom" 100)) ∧
    Transfer scenarioLib (scenarioFaucet Hour) "A" [⟨"uatom", 30⟩] (scenarioLedger [priorSend])
      = (.ret (200, none),
          scenarioLedger [priorSend, ⟨"mun1faucet", "A", "30uatom", 100 * Hour⟩]) ∧
    (TotalTransferredAmount scenarioLib (scenarioFaucet Hour) "A" "uatom"
        (scenarioLedger [priorSend, ⟨"mun1faucet", "A", "30uatom", 100 * Hour⟩])
      = (.ret (90, none),
          scenarioLedger [priorSend, ⟨"mun1faucet", "A", "30uatom", 100 * Hour⟩]) ∧
      90 ≤ (scenarioFaucet Hour).coinsMax "uatom") :=
  ⟨by decide, by decide,
    Transfer_cumulative parseCoinsSimple (scenarioFaucet Hour) rfl "A" [⟨"uatom", 30⟩]
      ⟨"uatom", 30⟩ (scenarioLedger [priorSend])
      (scenarioLedger [priorSend, ⟨"mun1faucet", "A", "30uatom", 100 * Hour⟩]) 60
      (by decide) (by decide) (by decide) (by decide) (by decide) (by decide)
      ⟨[⟨"uatom", 30⟩], rfl, by decide⟩ (by decide)⟩

/-- Inputs on which C7 fails as stated. With 150 uatom sent inside the window and the cap 100,
a request for 5 stake succeeds and the total of uatom stays 150, above its cap. With a
refresh window of minus one hour, a request for 30 uatom succeeds and the total stays 0. With
60 uatom sent and a request for `2 ^ 64 - 50` uatom, the transfer succeeds and the total
afterwards reads 10. -/
theorem Transfer_cumulative_counterexample :
    ((Transfer scenarioLib (scenarioFaucet Hour) "A" [⟨"stake", 5⟩]
        (scenarioLedger [⟨"mun1faucet", "A", "150uatom", 100 * Hour - 10 * Minute⟩])).1
      = .ret (NO_ERROR, none) ∧
    (TotalTransferredAmount scenarioLib (scenarioFaucet Hour) "A" "uatom"
        (Transfer scenarioLib (scenarioFaucet Hour) "A" [⟨"stake", 5⟩]
          (scenarioLedger [⟨"mun1faucet", "A", "150uatom", 100 * Hour - 10 * Minute⟩])).2).1
      = .ret (150, none) ∧
    (scenarioFaucet Hour).coinsMax "uatom" = 100) ∧
    ((TotalTransferredAmount scenarioLib (scenarioFaucet (-Hour)) "A" "uatom"
        (scenarioLedger [])).1 = .ret (0, none) ∧
    (Transfer scenarioLib (scenarioFaucet (-Hour)) "A" [⟨"uatom", 30⟩] (scenarioLedger [])).1
      = .ret (NO_ERROR, none) ∧
    (TotalTransferredAmount scenarioLib (scenarioFaucet (-Hour)) "A" "uatom"
        (Transfer scenarioLib (scenarioFaucet (-Hour)) "A" [⟨"uatom", 30⟩]
          (scenarioLedger [])).2).1 = .ret (0, none)) ∧
    ((TotalTransferredAmount scenarioLib (scenarioFaucet Hour) "A" "uatom"
        (scenarioLedger [priorSend])).1 = .ret (60, none) ∧
    (Transfer scenarioLib (scenarioFaucet Hour) "A" [⟨"uatom", 18446744073709551566⟩]
        (scenarioLedger [priorSend])).1 = .ret (NO_ERROR, none) ∧
    (TotalTransferredAmount scenarioLib (scenarioFaucet Hour) "A" "uatom"
        (Transfer scenarioLib (scenarioFaucet Hour) "A" [⟨"uatom", 18446744073709551566⟩]
          (scenarioLedger [priorSend])).2).1 = .ret (10, none)) := by
  refine ⟨⟨by decide, by decide, by decide⟩, ⟨by decide, by decide, by decide⟩,
    ⟨by decide, by decide, by decide⟩⟩

end cosmosfaucet
